import Mathlib

/-!
# golang-yuque-sync: the document registry and the synchronisation pass

A shallow embedding of `main.go`.

Conventions of the embedding.

* A Go `string` / `[]byte` is a byte sequence.  It is embedded as a Lean `String`,
  read as the sequence of its characters, one character per byte.  Every
  delimiter the program inspects (`/`, `.`, `#`, space, `\n`, `\r`) is a single
  byte.
* Go `int64` is `Int` (no arithmetic is performed on identifiers, only
  comparison with zero and decimal formatting).
* A Go slice is `Option (List α)`: `none` is the nil slice, `some l` a non-nil
  slice with elements `l`.  The difference is visible to `json.Marshal`.
* The standard library is embedded by its documented behaviour (`path.Join`,
  `path.Clean`, `strings.*`, `bufio.Reader.ReadLine`) or taken as a parameter
  when only its result matters (`crypto/md5`, `encoding/json` encoders,
  the HTTP round trip, the clock).
* Mutable state is passed explicitly.
* A run-time panic is not recovered anywhere in `main.go`; it is a flag of the
  process state, and a process that has panicked does nothing more.
-/

set_option linter.dupNamespace false
set_option linter.unusedVariables false
set_option linter.unnecessarySeqFocus false

namespace YuqueSync

/-! ## Strings -/

/-- The function `strings.Split(s, sep)` for a one byte separator, on character lists. -/
def splitOnChar (c : Char) : List Char → List (List Char)
  | [] => [[]]
  | x :: xs =>
    if x = c then [] :: splitOnChar c xs
    else
      match splitOnChar c xs with
      | [] => [[x]]
      | h :: t => (x :: h) :: t

/-- The function `strings.Split(s, sep)` for a one byte separator. -/
def stringsSplit (s : String) (c : Char) : List String :=
  (splitOnChar c s.data).map String.mk

/-- The function `strings.Contains(s, sub)` for a one byte `sub`. -/
def stringsContains (s : String) (c : Char) : Bool :=
  s.data.contains c

/-- The function `strings.HasSuffix(s, suffix)`. -/
def stringsHasSuffix (s suffix : String) : Bool :=
  suffix.data.isSuffixOf s.data

/-- The function `strings.ReplaceAll(s, old, "")` for a one byte `old`: every
occurrence of the byte is deleted. -/
def stringsRemoveAll (s : String) (c : Char) : String :=
  ⟨s.data.filter (fun x => x != c)⟩

/-- Join character lists with a separator character between consecutive ones. -/
def joinWith (c : Char) : List (List Char) → List Char
  | [] => []
  | [x] => x
  | x :: y :: rest => x ++ c :: joinWith c (y :: rest)

/-! ## Package `path` -/

/-- The state of `path.Clean` after each path element: the elements written to
the output so far (last one first) and `dotdot`, the number of leading `..`
elements that a later `..` must not remove. -/
structure CleanState where
  out : List (List Char)
  dotdot : Nat

/-- One iteration of the main loop of `path.Clean`, on a whole path element. -/
def cleanStep (rooted : Bool) (st : CleanState) (elem : List Char) : CleanState :=
  if elem = [] then st                      -- empty path element
  else if elem = [ '.'] then st             -- . element
  else if elem = [ '.', '.'] then            -- .. element
    if st.dotdot < st.out.length then ⟨st.out.tail, st.dotdot⟩   -- can backtrack
    else if !rooted then ⟨elem :: st.out, st.out.length + 1⟩     -- keep the ..
    else st
  else ⟨elem :: st.out, st.dotdot⟩          -- real path element

/-- The function `path.Clean` on character lists. -/
def cleanChars (p : List Char) : List Char :=
  if p = [] then [ '.']
  else
    let rooted : Bool := p.head? = some '/'
    let st := (splitOnChar '/' p).foldl (cleanStep rooted) ⟨[], 0⟩
    if rooted then '/' :: joinWith '/' st.out.reverse
    else if st.out = [] then [ '.']
    else joinWith '/' st.out.reverse

/-- The function `path.Clean`. -/
def pathClean (p : String) : String := ⟨cleanChars p.data⟩

/-- The function `path.Join`: empty elements are dropped, the others are joined
with `/` and the result is cleaned; with no non-empty element the result is
the empty string. -/
def pathJoin (elem : List String) : String :=
  match (elem.map String.data).filter (fun e => e ≠ []) with
  | [] => ""
  | es => ⟨cleanChars (joinWith '/' es)⟩

/-! ## Configuration (`var (...)` and `init`) -/

/-- The package level variables of `main.go`. -/
structure Config where
  baseApiUrl : String
  baseDir : String
  ignoreFile : String
  ignoreFilePath : String
  token : String
  allowedSuffix : List String
  baseNamespace : String

/-- The initial values of the package level variables. -/
def defaultConfig : Config :=
  { baseApiUrl := "https://www.yuque.com/api/v2"
    baseDir := ""
    ignoreFile := ".ignoresync"
    ignoreFilePath := ""
    token := ""
    allowedSuffix := [ ".md"]
    baseNamespace := "tests/sync" }

/-- The function `init`.  `getenv` is `os.Getenv`, `getwd` the result of
`os.Getwd()` (the empty string when it fails). -/
def init (getenv : String → String) (getwd : String) : Config :=
  let c := defaultConfig
  let c := if getenv "BASE_API_URL" ≠ "" then { c with baseApiUrl := getenv "BASE_API_URL" } else c
  let c := if getenv "BASE_DIR" = "" then { c with baseDir := getwd }
           else { c with baseDir := getenv "BASE_DIR" }
  let c := if getenv "IGNORE_FILE" ≠ "" then { c with ignoreFile := getenv "IGNORE_FILE" } else c
  let c := if getenv "TOKEN" ≠ "" then { c with token := getenv "TOKEN" } else c
  let c := if getenv "BASE_NAMESPACE" ≠ "" then { c with baseNamespace := getenv "BASE_NAMESPACE" }
           else c
  { c with ignoreFilePath := pathJoin [c.baseDir, c.ignoreFile] }

/-- The function `readIgnore`: `file` is the content of the ignore file, `none`
when it cannot be read. -/
def readIgnore (cfg : Config) (file : Option String) : List String :=
  match file with
  | none => []
  | some body => stringsSplit body '\n' ++ [cfg.ignoreFile]

/-! ## The scanner -/

/-- The function `isIgnores`. -/
def isIgnores (cfg : Config) (ignores : List String) (name currentPath : String) : Bool :=
  match ignores with
  | [] => false
  | ignore :: rest =>
    if stringsContains ignore '/' then
      if pathJoin [cfg.baseDir, ignore] = pathJoin [currentPath, name] then true
      else isIgnores cfg rest name currentPath
    else if name = ignore then true
    else isIgnores cfg rest name currentPath

/-- The function `isSupportSuffix`: the name must end with every allowed suffix. -/
def isSupportSuffix (cfg : Config) (filename : String) : Bool :=
  cfg.allowedSuffix.all (fun suffix => stringsHasSuffix filename suffix)

/-- What the program reads of an `os.FileInfo`. -/
structure FileInfo where
  Name : String
  IsDir : Bool
deriving DecidableEq, Repr

/-- A directory tree as `ioutil.ReadDir` presents it: the children of a
directory are the entries `ReadDir` returns for it, in the order it returns them. -/
inductive Node where
  | file (name : String) (content : String)
  | dir (name : String) (children : List Node)

/-- The `os.FileInfo` of a directory entry. -/
def Node.info : Node → FileInfo
  | .file name _ => ⟨name, false⟩
  | .dir name _ => ⟨name, true⟩

mutual
/-- The function `scanFiles`: `files` is the result of `ioutil.ReadDir(parent)`
and the handler threads its state `σ`.  Reading the directory
`path.Join(parent, name)` of an entry that is a directory yields that entry's children. -/
def scanFiles {σ : Type} (cfg : Config) (ignores : List String) (parent : String)
    (files : List Node) (fileHandle : FileInfo → String → σ → σ) (s : σ) : σ :=
  match files with
  | [] => s
  | file :: rest =>
    scanFiles cfg ignores parent rest fileHandle
      (scanEntry cfg ignores parent file fileHandle s)
/-- The body of the loop of `scanFiles`, for one directory entry. -/
def scanEntry {σ : Type} (cfg : Config) (ignores : List String) (parent : String)
    (file : Node) (fileHandle : FileInfo → String → σ → σ) (s : σ) : σ :=
  match file with
  | .file name content =>
    if !isIgnores cfg ignores name parent then
      if isSupportSuffix cfg name then fileHandle (Node.file name content).info parent s else s
    else s
  | .dir name children =>
    if !isIgnores cfg ignores name parent then
      scanFiles cfg ignores (pathJoin [parent, name]) children fileHandle s
    else s
end

/-! ## Records and the registry -/

/-- A point in time (`time.Time`), as a number. -/
abbrev Time := Nat

/-- The type `Book`: one record of the registry.  `UpdatedAt` and `Raw` are
pointers in the source, `none` is the nil pointer. -/
structure Book where
  Id : Int := 0
  Hash : String := ""
  Title : String := ""
  Name : String := ""
  Dir : String := ""
  Slug : String := ""
  Path : String := ""
  Version : String := ""
  UpdatedAt : Option Time := none
  Raw : Option String := none
deriving DecidableEq, Repr

/-- The type `Body`: the payload of a create or update call. -/
structure Body where
  Title : String
  Slug : String
  Public : Int
  Format : String
  Body : String
deriving DecidableEq, Repr

/-- The type `DocDetailSerializer`: the `data` member of a response. -/
structure DocDetailSerializer where
  Id : Int := 0
  Slug : String := ""
  Title : String := ""
  BookId : Int := 0
  Book : String := ""
  UserId : Int := 0
  User : String := ""
  Format : String := ""
  Body : String := ""
  BodyDraft : String := ""
  BodyHtml : String := ""
  BodyLake : String := ""
  CreatorId : Int := 0
  Public : Int := 0
  Status : Int := 0
  LikesCount : Int := 0
  CommentsCount : Int := 0
  ContentUpdatedAt : Option Time := none
  CreatedAt : Option Time := none
  DeletedAt : Option Time := none
  UpdatedAt : Option Time := none
deriving DecidableEq, Repr

/-- The library functions whose result the program only passes on. -/
structure Lib where
  /-- The hex form (`%x`) of the MD5 digest of a string. -/
  md5hex : String → String
  /-- The function `json.Marshal` on one `Book`. -/
  marshalBook : Book → Except String String
  /-- The function `json.Marshal` on a `Body` (it cannot fail on this type). -/
  marshalBody : Body → String
  /-- The function `json.Marshal` on a `DocDetailSerializer`, its error dropped. -/
  marshalDoc : DocDetailSerializer → String
  /-- Whether `url.Parse` accepts a URL: `http.NewRequest` with the method
  `POST` or `PUT` returns a request exactly when it does. -/
  urlParse : String → Bool

/-- The function `encodeString`. -/
def encodeString (lib : Lib) (str : String) : String := lib.md5hex str

/-- How the loop variable of a `for ... range` loop is allocated: one variable
for the whole loop (Go before 1.22) or a fresh one per iteration (Go 1.22). -/
inductive LoopVar where
  | shared
  | perIteration
deriving DecidableEq, Repr

/-- A Go map, as an association list; the first entry for a key is the current one. -/
abbrev GoMap (κ ν : Type) := List (κ × ν)

/-- The type `Books`.  The maps `_idxById` and `_idxBySlug` hold pointers
(`*Book`): a pointer is the index of a cell in `cells`, the memory that holds
the loop variable `book` of `reloadIdx`.  No pointer refers to an element of
the slice `books`. -/
structure Books where
  path : String := ""
  books : Option (List Book) := none
  cells : List Book := []
  _idxById : GoMap Int Nat := []
  _idxByIdIdx : GoMap Int Nat := []
  _idxBySlug : GoMap String Nat := []
  _idxBySlugIdx : GoMap String Nat := []

/-- The elements of a slice. -/
def elems {α : Type} (s : Option (List α)) : List α := s.getD []

/-- The function `append(s, x)`. -/
def sliceAppend {α : Type} (s : Option (List α)) (x : α) : Option (List α) :=
  some (elems s ++ [x])

/-- The method `Books.AppendBook`. -/
def Books.AppendBook (bs : Books) (book : Book) : Books :=
  { bs with books := sliceAppend bs.books book }

/-- The loop of `reloadIdx` from index `i` on.  `var` is the cell of the loop
variable when it is shared. -/
def reloadIdxLoop (lv : LoopVar) (var : Nat) : Nat → List Book → Books → Books
  | _, [], bs => bs
  | i, book :: rest, bs =>
    let p := match lv with
      | .shared => var
      | .perIteration => bs.cells.length
    let cells := match lv with
      | .shared => bs.cells.set var book
      | .perIteration => bs.cells ++ [book]
    reloadIdxLoop lv var (i + 1) rest
      { bs with
        cells := cells
        _idxById := (book.Id, p) :: bs._idxById
        _idxByIdIdx := (book.Id, i) :: bs._idxByIdIdx
        _idxBySlug := (book.Slug, p) :: bs._idxBySlug
        _idxBySlugIdx := (book.Slug, i) :: bs._idxBySlugIdx }

/-- The method `Books.reloadIdx`. -/
def Books.reloadIdx (lv : LoopVar) (bs : Books) : Books :=
  match lv with
  | .shared =>
    reloadIdxLoop lv bs.cells.length 0 (elems bs.books) { bs with cells := bs.cells ++ [{}] }
  | .perIteration => reloadIdxLoop lv 0 0 (elems bs.books) bs

/-- The method `Books.FindById`: found flag, index (zero when absent), pointer. -/
def Books.FindById (bs : Books) (id : Int) : Bool × Nat × Option Nat :=
  ((bs._idxById.lookup id).isSome, (bs._idxByIdIdx.lookup id).getD 0, bs._idxById.lookup id)

/-- The method `Books.FindBySlug`: found flag, index (zero when absent), pointer. -/
def Books.FindBySlug (bs : Books) (slug : String) : Bool × Nat × Option Nat :=
  ((bs._idxBySlug.lookup slug).isSome, (bs._idxBySlugIdx.lookup slug).getD 0,
    bs._idxBySlug.lookup slug)

/-- The method `Books.Parse`.  `file` is `none` when `os.Stat` or
`ioutil.ReadFile` fails, and otherwise the slice `jsonBooks` after
`json.Unmarshal` (whose error is ignored). -/
def Books.Parse (lv : LoopVar) (bs : Books) (path : String) (file : Option (List Book)) :
    Books :=
  let bs := { bs with path := path }
  match file with
  | none => bs
  | some jsonBooks =>
    if jsonBooks.length > 0 then Books.reloadIdx lv { bs with books := some jsonBooks }
    else bs

/-- The function `json.Marshal` on a slice of records: `null` for the nil slice,
a bracketed comma separated list otherwise. -/
def marshalBooks (lib : Lib) : Option (List Book) → Except String String
  | none => .ok "null"
  | some l => do
    let parts ← l.mapM lib.marshalBook
    .ok ("[" ++ ",".intercalate parts ++ "]")

/-- The method `Books.Save`: the result is the error of `json.Marshal`, or the
call `ioutil.WriteFile(fsname, data, os.ModePerm)` that is issued (file name and
data); the error of that call is returned to the caller as it is. -/
def Books.Save (lib : Lib) (bs : Books) (name : List String) : Except String (String × String) :=
  let fsname := "book.json"
  let fsname := if bs.path ≠ "" then bs.path else fsname
  let fsname := match name with
    | [] => fsname
    | n :: _ => n
  match marshalBooks lib bs.books with
  | .error err => .error err
  | .ok data => .ok (fsname, data)

/-- The handler returned by `buildBook(books)`; `now` is the time at which
`buildBook` was called. -/
def buildBook (lib : Lib) (now : Time) (info : FileInfo) (dir : String) (books : Books) : Books :=
  let filepath := pathJoin [dir, info.Name]
  let slug := encodeString lib filepath
  let (has, idx, ptr) := books.FindBySlug slug
  -- the record behind the pointer `book`: an index cell, or `new(Book)`
  let old : Book := match has, ptr with
    | true, some p => (books.cells.get? p).getD {}
    | _, _ => {}
  let book : Book :=
    { old with
      Title := ""
      Version := "1.0.0"
      UpdatedAt := some now
      Name := info.Name
      Slug := slug
      Dir := dir
      Path := pathJoin [filepath] }
  -- the assignments go through the pointer: they change the cell, not the slice
  let books : Books := match has, ptr with
    | true, some p => { books with cells := books.cells.set p book }
    | _, _ => books
  if idx = 0 then books.AppendBook book else books

/-! ## Reading a file line by line (`bufio`) -/

/-- The size of the buffer of `bufio.NewReader`. -/
def defaultBufSize : Nat := 4096

/-- The errors of `bufio.Reader.ReadSlice`. -/
inductive SliceErr where
  | eof
  | bufferFull
deriving DecidableEq, Repr

/-- The method `bufio.Reader.ReadSlice` with delimiter `\n`, on the bytes not yet
read: the slice returned, the error, and the bytes left.  The bytes through
the first newline are returned when it lies within one buffer; otherwise a
full buffer with `ErrBufferFull`, or, when fewer bytes are left, all of them
with `io.EOF`. -/
def ReadSlice (rest : List Char) : List Char × Option SliceErr × List Char :=
  let pre := rest.takeWhile (fun c => c != '\n')
  if pre.length < rest.length ∧ pre.length < defaultBufSize then
    (pre ++ [ '\n'], none, rest.drop (pre.length + 1))
  else if defaultBufSize ≤ rest.length then
    (rest.take defaultBufSize, some .bufferFull, rest.drop defaultBufSize)
  else (rest, some .eof, [])

/-- The result of `bufio.Reader.ReadLine`: the line, the flag that it is only the
beginning of a line, whether the error is `io.EOF`, and the bytes left. -/
structure LineRead where
  line : List Char
  more : Bool
  eof : Bool
  rest : List Char
deriving DecidableEq, Repr

/-- The method `bufio.Reader.ReadLine`. -/
def ReadLine (rest : List Char) : LineRead :=
  match ReadSlice rest with
  | (line, some .bufferFull, rest') =>
    -- a "\r" at the end of a full buffer is put back
    if line.getLast? = some '\r' then ⟨line.dropLast, true, false, '\r' :: rest'⟩
    else ⟨line, true, false, rest'⟩
  | (line, err, rest') =>
    if line = [] then ⟨[], false, err = some .eof, rest'⟩
    else if line.getLast? = some '\n' then
      if line.dropLast.getLast? = some '\r' then ⟨line.dropLast.dropLast, false, false, rest'⟩
      else ⟨line.dropLast, false, false, rest'⟩
    else ⟨line, false, false, rest'⟩

/-- The reading loop of the handler of `saveYuQue`, with a bound on the number of
iterations: the title and the content when the loop ends within the bound.
The file is given by its whole content, so `ReadLine` returns no error but
`io.EOF` at the end. -/
def readLoop : Nat → Nat → String → List Char → List Char → Option (String × String)
  | 0, _, _, _, _ => none
  | fuel + 1, idx, title, content, rest =>
    let r := ReadLine rest
    let title :=
      if idx = 0 then
        stringsRemoveAll (stringsRemoveAll (stringsRemoveAll ⟨r.line⟩ '#') ' ') '\n'
      else title
    if r.eof then some (title, ⟨content⟩)
    else readLoop fuel (idx + 1) title (content ++ r.line ++ [ '\n']) r.rest

/-- The reading loop on a whole file.  Every iteration but the last consumes
at least one byte, so the bound is never reached (`readLoop_isSome`). -/
def readTitleAndContent (data : String) : String × String :=
  (readLoop (data.data.length + 1) 0 "" [] data.data).getD ("", "")

/-! ## The remote store client -/

/-- An `http.Request`, as far as the program sets it. -/
structure Request where
  Method : String
  URL : String
  Header : List (String × String)
  Body : String
deriving DecidableEq, Repr

/-- The outcome of `client.Do(req)` followed by `ioutil.ReadAll` and
`json.Unmarshal(bys, v)` into the fresh `Resp`:
`doErr` when `Do` returns an error, `unmarshalErr` when `json.Unmarshal` does,
and `decoded d` when `json.Unmarshal` returns nil and leaves `resp.Data = d`
(a member that is absent from the body keeps its zero value). -/
inductive Reply where
  | doErr (err : String)
  | unmarshalErr (err : String)
  | decoded (data : DocDetailSerializer)
deriving DecidableEq, Repr

/-- The type `Yuque`.  The client answers a request; the answer may depend on
the requests sent before it. -/
structure Yuque where
  baseUri : String
  client : List Request → Request → Reply

/-- The function `NewYuque`. -/
def NewYuque (baseUri : String) (client : List Request → Request → Reply) : Yuque :=
  ⟨baseUri, client⟩

/-- The verb `%d` of `fmt.Sprintf`. -/
def formatInt (n : Int) : String := toString n

/-- The state of the process during the sync step: the requests handed to
`client.Do`, oldest first, and whether the process has panicked.  A panic
ends the process: from a state that has panicked nothing more is sent, and
`main` saves nothing. -/
structure Process where
  sent : List Request := []
  panicked : Bool := false
deriving DecidableEq, Repr

/-- The function `http.NewRequest` for the methods `POST` and `PUT`: the request,
or `none` for the nil request that it returns with an error when `url.Parse`
rejects the URL. -/
def NewRequest (lib : Lib) (method url body : String) : Option Request :=
  if lib.urlParse url then some ⟨method, url, [], body⟩ else none

/-- The method `Yuque.handleRequest` with `v` a `*Resp`.  On the nil request
`req.Header.Add` dereferences a nil pointer: the process panics and nothing is
sent (the result `none`, which is also the result in a process that has
panicked before).  Otherwise the request is handed to `client.Do` once (it is
appended to the requests sent) and the result is the error returned or
`resp.Data`. -/
def Yuque.handleRequest (cfg : Config) (y : Yuque) (req : Option Request) (p : Process) :
    Option (Except String DocDetailSerializer) × Process :=
  if p.panicked then (none, p)
  else
    match req with
    | none => (none, { p with panicked := true })
    | some req =>
      let req := { req with Header := req.Header ++
        [("User-Agent", "PHP后端规范"), ("X-Auth-Token", cfg.token),
         ("Content-Type", "application/json")] }
      match y.client p.sent req with
      | .doErr err => (some (.error err), { p with sent := p.sent ++ [req] })
      | .unmarshalErr err => (some (.error err), { p with sent := p.sent ++ [req] })
      | .decoded data => (some (.ok data), { p with sent := p.sent ++ [req] })

/-- The method `Yuque.Post`; the error of `http.NewRequest` is dropped. -/
def Yuque.Post (cfg : Config) (lib : Lib) (y : Yuque) (action : String) (body : String)
    (p : Process) : Option (Except String DocDetailSerializer) × Process :=
  y.handleRequest cfg (NewRequest lib "POST" (y.baseUri ++ action) body) p

/-- The method `Yuque.Put`; the error of `http.NewRequest` is dropped. -/
def Yuque.Put (cfg : Config) (lib : Lib) (y : Yuque) (action : String) (body : String)
    (p : Process) : Option (Except String DocDetailSerializer) × Process :=
  y.handleRequest cfg (NewRequest lib "PUT" (y.baseUri ++ action) body) p

/-- The result of `Yuque.Save`: the error returned (`none` also when the call
panicked and returned nothing), the record behind `b`, and the state of the
process. -/
structure SaveResult where
  err : Option String
  book : Book
  proc : Process

/-- The method `Yuque.Save`.  `clock` is `time.Now()`, as a function of the
requests sent. -/
def Yuque.Save (cfg : Config) (lib : Lib) (clock : List Request → Time) (y : Yuque)
    (body : String) (b : Book) (p : Process) : SaveResult :=
  let r :=
    if b.Id ≠ 0 then
      y.Put cfg lib ("/repos/" ++ cfg.baseNamespace ++ "/docs/" ++ formatInt b.Id) body p
    else
      y.Post cfg lib ("/repos/" ++ cfg.baseNamespace ++ "/docs") body p
  match r with
  | (none, p) => ⟨none, b, p⟩
  | (some (.error err), p) => ⟨some err, b, p⟩
  | (some (.ok data), p) =>
    ⟨none, { b with Id := data.Id, Raw := some (lib.marshalDoc data),
                    UpdatedAt := some (clock p.sent) },
      p⟩

/-- The handler returned by `saveYuQue(y)`; its state is the state of the
process.  `readFile` gives the content of the file that `os.Open` opens,
`none` when it cannot be opened.  Log output is not part of the state. -/
def saveYuQue (cfg : Config) (lib : Lib) (readFile : String → Option String)
    (clock : List Request → Time) (y : Yuque) (info : FileInfo) (dir : String) (b : Book)
    (p : Process) : Book × Process :=
  let filepath := pathJoin [dir, info.Name]
  match readFile filepath with
  | none => (b, p)
  | some data =>
    let (title, content) := readTitleAndContent data
    let b := { b with Title := title }
    let body : Body :=
      { Title := title, Public := 0, Slug := b.Slug, Format := "markdown", Body := content }
    let post := lib.marshalBody body
    let r := y.Save cfg lib clock post b p
    (r.book, r.proc)

/-! ## Reconciling the registry with the disk -/

/-- The loop of `Books.ReadEach`: `acc` is the local slice `books`. -/
def readEachLoop {σ : Type} (stat : String → Option FileInfo)
    (handle : FileInfo → String → Book → σ → Book × σ) :
    List Book → List Book → σ → List Book × σ
  | [], acc, s => (acc, s)
  | b :: rest, acc, s =>
    match stat (pathJoin [b.Dir, b.Name]) with
    | none => readEachLoop stat handle rest acc s
    | some info =>
      let r := handle info b.Dir b s
      readEachLoop stat handle rest (acc ++ [r.1]) r.2

/-- The method `Books.ReadEach`.  `stat` is `os.Stat`, `none` when it returns an
error; the handler receives the record by pointer and returns it as it leaves it. -/
def Books.ReadEach {σ : Type} (stat : String → Option FileInfo)
    (handle : FileInfo → String → Book → σ → Book × σ) (bs : Books) (s : σ) : Books × σ :=
  let r := readEachLoop stat handle (elems bs.books) [] s
  ({ bs with books := some r.1 }, r.2)

/-! ## The program -/

/-- Everything outside the process that a run reads. -/
structure World where
  /-- The content of the ignore file, `none` when it cannot be read. -/
  ignoreFile : Option String
  /-- The records decoded from `book.json`, `none` when it cannot be read. -/
  snapshot : Option (List Book)
  /-- The entries of the working directory, as `ioutil.ReadDir` lists them. -/
  root : List Node
  stat : String → Option FileInfo
  readFile : String → Option String
  /-- The time at which `buildBook` is called. -/
  buildTime : Time
  clock : List Request → Time
  client : List Request → Request → Reply

/-- The registry after the build phase of `main`. -/
def buildPhase (cfg : Config) (lib : Lib) (lv : LoopVar) (w : World) : Books :=
  let ignores := readIgnore cfg w.ignoreFile
  let books : Books := {}
  let books := books.Parse lv (pathJoin [cfg.baseDir, "book.json"]) w.snapshot
  scanFiles cfg ignores "." w.root (buildBook lib w.buildTime) books

/-- What a run leaves behind: the registry, the result of `Books.Save` when it
is called, the requests sent, and whether the process ended in a panic. -/
structure Outcome where
  books : Books
  saved : Option (Except String (String × String))
  sent : List Request
  panicked : Bool

/-- The function `main`; `args` is `os.Args`. -/
def main (cfg : Config) (lib : Lib) (lv : LoopVar) (w : World) (args : List String) : Outcome :=
  let command := match args with
    | _ :: c :: _ => c
    | _ => "sync"
  let books := buildPhase cfg lib lv w
  if command = "sync" then
    let y := NewYuque cfg.baseApiUrl w.client
    let r := books.ReadEach w.stat (saveYuQue cfg lib w.readFile w.clock y) {}
    -- a panic inside `ReadEach` ends the process before `bs.books` is assigned
    if r.2.panicked then ⟨books, none, r.2.sent, true⟩
    else ⟨r.1, some (r.1.Save lib []), r.2.sent, false⟩
  else if command = "rebuild" then
    ⟨books, some (books.Save lib []), [], false⟩
  else ⟨books, none, [], false⟩

/-! ## Definitions used to state the properties -/

/-- The request that `Yuque.Save` is to send for a record, the remote id written
in decimal. -/
def saveRequest (cfg : Config) (y : Yuque) (body : String) (b : Book) : Request :=
  { Method := if b.Id = 0 then "POST" else "PUT"
    URL :=
      if b.Id = 0 then y.baseUri ++ ("/repos/" ++ cfg.baseNamespace ++ "/docs")
      else y.baseUri ++ ("/repos/" ++ cfg.baseNamespace ++ "/docs/" ++ toString b.Id)
    Header := [("User-Agent", "PHP后端规范"), ("X-Auth-Token", cfg.token),
      ("Content-Type", "application/json")]
    Body := body }

/-- The first line of a file: the bytes before the first newline, without a
carriage return that directly precedes that newline. -/
def firstLine (data : String) : String :=
  let pre := data.data.takeWhile (fun c => c != '\n')
  if pre.length < data.data.length ∧ pre.getLast? = some '\r' then ⟨pre.dropLast⟩ else ⟨pre⟩

/-- The title as the specification words it: the leading heading markers of the
first line removed and every whitespace character removed, all other
characters kept. -/
def claimedTitle (line : String) : String :=
  ⟨(line.data.dropWhile (fun c => c == '#')).filter (fun c => !c.isWhitespace)⟩

/-- The records whose backing file exists, each with the `os.FileInfo` of its
file, in the order of the registry. -/
def liveRecords (stat : String → Option FileInfo) (l : List Book) : List (FileInfo × Book) :=
  l.filterMap (fun b => (stat (pathJoin [b.Dir, b.Name])).map (fun info => (info, b)))

/-- Call the handler once on each record of a list, in order: the records as
the handler leaves them, and the final state. -/
def callEach {σ : Type} (handle : FileInfo → String → Book → σ → Book × σ) :
    List (FileInfo × Book) → σ → List Book × σ
  | [], s => ([], s)
  | (info, b) :: rest, s =>
    let r := handle info b.Dir b s
    let t := callEach handle rest r.2
    (r.1 :: t.1, t.2)

/-- A handler that also records the arguments of each of its calls. -/
def logged {σ : Type} (handle : FileInfo → String → Book → σ → Book × σ) :
    FileInfo → String → Book → σ × List (FileInfo × String × Book) →
      Book × (σ × List (FileInfo × String × Book)) :=
  fun info dir b s =>
    let r := handle info dir b s.1
    (r.1, (r.2, s.2 ++ [(info, dir, b)]))

mutual
/-- Every file below a list of directory entries, with the names of the
directories that lie between the root and the file, outermost first. -/
def filesBelow (ancestors : List String) : List Node → List (List String × String)
  | [] => []
  | n :: rest => filesOf ancestors n ++ filesBelow ancestors rest
/-- Every file at or below one directory entry. -/
def filesOf (ancestors : List String) : Node → List (List String × String)
  | .file name _ => [(ancestors, name)]
  | .dir name children => filesBelow (ancestors ++ [name]) children
end

/-- A file is eligible when its name equals no rule, the name of no directory
above it equals a rule, and its name ends with every allowed suffix. -/
def eligible (cfg : Config) (ignores : List String) (f : List String × String) : Bool :=
  !ignores.contains f.2 && f.1.all (fun a => !ignores.contains a) && isSupportSuffix cfg f.2

/-- The directory string that the scan passes along for a chain of directory
names below the root `.`. -/
def dirOf (ancestors : List String) : String :=
  ancestors.foldl (fun p n => pathJoin [p, n]) "."

/-- The record that the build phase at time `t` makes for a new file `name` of
the working directory. -/
def builtRecord (lib : Lib) (name : String) (t : Time) : Book :=
  { Title := "", Version := "1.0.0", UpdatedAt := some t, Name := name,
    Slug := lib.md5hex name, Dir := ".", Path := name }

/-! ## Concrete inputs -/

/-- The loop of `getScheme` of package `net/url`: `scheme` holds the bytes read
so far.  The result is `none` for the error of a colon at the start, and
otherwise whether a scheme was found and the rest of the URL after it. -/
def getSchemeLoop (raw : List Char) : List Char → List Char → Option (Bool × List Char)
  | _, [] => some (false, raw)
  | scheme, c :: cs =>
    if c.isAlpha then getSchemeLoop raw (scheme ++ [c]) cs
    else if c.isDigit || c = '+' || c = '-' || c = '.' then
      if scheme = [] then some (false, raw) else getSchemeLoop raw (scheme ++ [c]) cs
    else if c = ':' then
      if scheme = [] then none else some (true, cs)
    else some (false, raw)

/-- The first checks of `url.Parse`, for concrete runs: a URL is rejected when
it holds a control character, when it starts with a colon, and when it has no
scheme, does not start with `/` and has a colon in its first path segment.
The authority, the port and the escapes are not examined. -/
def sampleUrlParse (url : String) : Bool :=
  if url.data.any (fun c => c.toNat < 32 || c.toNat = 127) then false
  else
    let noFrag := url.data.takeWhile (fun c => c != '#')
    match getSchemeLoop noFrag [] noFrag with
    | none => false
    | some (hasScheme, rest) =>
      let rest := rest.takeWhile (fun c => c != '?')
      if rest.head? = some '/' then true
      else if hasScheme then true
      else !(rest.takeWhile (fun c => c != '/')).contains ':'

/-- Library functions for concrete runs. -/
def sampleLib : Lib :=
  { md5hex := fun s => "md5(" ++ s ++ ")"
    marshalBook := fun b => .ok ("<" ++ b.Slug ++ ">")
    marshalBody := fun b => b.Title ++ "|" ++ b.Body
    marshalDoc := fun d => formatInt d.Id
    urlParse := sampleUrlParse }

/-- The configuration of a run with no environment variable set, started in
the directory `/home/u/docs`. -/
def sampleConfig : Config := init (fun _ => "") "/home/u/docs"

/-- The configuration of a run with `BASE_API_URL=127.0.0.1:1`, a base URL
without scheme, started in the directory `/home/u/docs`. -/
def malformedConfig : Config :=
  init (fun k => if k = "BASE_API_URL" then "127.0.0.1:1" else "") "/home/u/docs"

/-- A record as the build phase makes it for the file `a.md`. -/
def sampleBook : Book :=
  { Name := "a.md", Dir := ".", Slug := "md5(a.md)", Path := "a.md", Version := "1.0.0",
    UpdatedAt := some 1 }

/-- A disk on which every file exists but `b.md`. -/
def sampleStat : String → Option FileInfo :=
  fun p => if p = "b.md" then none else some ⟨p, false⟩

/-- A tree with an ignored file, an ignored directory and a file without the
allowed suffix. -/
def sampleTree : List Node :=
  [ .file "a.md" "# A\n", .file "skip.md" "",
    .dir "x" [ .file "b.md" ""],
    .dir "y" [ .file "c.md" "", .file "d.txt" "", .dir "x" [ .file "e.md" ""]]]

/-- A run with no ignore file, no snapshot file and the given directory entries. -/
def freshWorld (w : World) (root : List Node) (t : Time) : World :=
  { w with ignoreFile := none, snapshot := none, root := root, buildTime := t }

/-- A world with nothing on disk and a remote store that answers every call
with the document id 7. -/
def sampleWorld : World :=
  { ignoreFile := none, snapshot := none, root := [], stat := fun _ => none,
    readFile := fun _ => none, buildTime := 1, clock := fun _ => 2,
    client := fun _ _ => .decoded { Id := 7 } }

/-- A world whose working directory holds the one file `a.md`, with no ignore
file and no snapshot, and a remote store that answers every call with the
document id 7. -/
def oneFileWorld : World :=
  { ignoreFile := none, snapshot := none, root := [ .file "a.md" "# A\n"],
    stat := fun p => if p = "a.md" then some ⟨"a.md", false⟩ else none,
    readFile := fun p => if p = "a.md" then some "# A\n" else none,
    buildTime := 1, clock := fun _ => 2,
    client := fun _ _ => .decoded { Id := 7 } }

/-! ## Theorems -/

/-- The embedded library functions on concrete inputs. -/
theorem library_examples :
    pathJoin [ ".", "a.md"] = "a.md" ∧
    pathJoin [ "/home/u", "sub/a.md"] = "/home/u/sub/a.md" ∧
    pathJoin [ "a/b/../c", "../../..", "x"] = "../x" ∧
    pathJoin [ "/..", "a//b/./"] = "/a/b" ∧
    pathJoin [ "", ""] = "" ∧
    stringsSplit "x\nsub/a.md\n" '\n' = [ "x", "sub/a.md", ""] ∧
    readTitleAndContent "# Hello World\nbody\r\nlast"
      = ("HelloWorld", "# Hello World\nbody\nlast\n") ∧
    formatInt 42 = "42" := by
  decide

theorem Save_eq (cfg : Config) (lib : Lib) (clock : List Request → Time) (y : Yuque)
    (body : String) (b : Book) (p : Process) (hrun : p.panicked = false)
    (hurl : lib.urlParse (saveRequest cfg y body b).URL = true) :
    y.Save cfg lib clock body b p =
      match y.client p.sent (saveRequest cfg y body b) with
      | .doErr err => ⟨some err, b, { p with sent := p.sent ++ [saveRequest cfg y body b] }⟩
      | .unmarshalErr err => ⟨some err, b, { p with sent := p.sent ++ [saveRequest cfg y body b] }⟩
      | .decoded data =>
        ⟨none, { b with Id := data.Id, Raw := some (lib.marshalDoc data),
                        UpdatedAt := some (clock (p.sent ++ [saveRequest cfg y body b])) },
          { p with sent := p.sent ++ [saveRequest cfg y body b] }⟩ := by
  unfold saveRequest at hurl
  unfold Yuque.Save Yuque.Put Yuque.Post Yuque.handleRequest NewRequest saveRequest formatInt
  by_cases h : b.Id = 0
  · simp only [h, if_true] at hurl
    simp only [h, ne_eq, not_true_eq_false, if_false, if_true, List.nil_append, hrun, hurl,
      Bool.false_eq_true]
    cases y.client p.sent _ <;> rfl
  · simp only [h, if_false] at hurl
    simp only [h, ne_eq, not_false_eq_true, if_false, if_true, List.nil_append, hrun, hurl,
      Bool.false_eq_true]
    cases y.client p.sent _ <;> rfl

theorem Save_cases (cfg : Config) (lib : Lib) (clock : List Request → Time) (y : Yuque)
    (body : String) (b : Book) (p : Process) :
    (∃ q, y.Save cfg lib clock body b p = ⟨none, b, q⟩) ∨
    (∃ err q, y.Save cfg lib clock body b p = ⟨some err, b, q⟩) ∨
    (∃ data q, y.Save cfg lib clock body b p =
      ⟨none, { b with Id := data.Id, Raw := some (lib.marshalDoc data),
                      UpdatedAt := some (clock q.sent) }, q⟩) := by
  unfold Yuque.Save Yuque.Put Yuque.Post Yuque.handleRequest NewRequest
  by_cases hrun : p.panicked = true
  · left
    simp only [hrun, if_true]
    split_ifs <;> exact ⟨_, rfl⟩
  · simp only [hrun, Bool.false_eq_true, if_false]
    by_cases hid : b.Id = 0
    · simp only [hid, ne_eq, not_true_eq_false, if_false]
      cases hu : lib.urlParse (y.baseUri ++ ("/repos/" ++ cfg.baseNamespace ++ "/docs"))
      · left
        simp only [Bool.false_eq_true, if_false]
        exact ⟨_, rfl⟩
      · simp only [if_true]
        cases y.client p.sent _
        · right; left; exact ⟨_, _, rfl⟩
        · right; left; exact ⟨_, _, rfl⟩
        · right; right; exact ⟨_, _, rfl⟩
    · simp only [hid, ne_eq, not_false_eq_true, if_true]
      cases hu : lib.urlParse
        (y.baseUri ++ ("/repos/" ++ cfg.baseNamespace ++ "/docs/" ++ formatInt b.Id))
      · left
        simp only [Bool.false_eq_true, if_false]
        exact ⟨_, rfl⟩
      · simp only [if_true]
        cases y.client p.sent _
        · right; left; exact ⟨_, _, rfl⟩
        · right; left; exact ⟨_, _, rfl⟩
        · right; right; exact ⟨_, _, rfl⟩

/-- C4 (as amended): when `http.NewRequest` accepts the URL of the call,
`Yuque.Save` hands exactly one request to the client and does not panic: a
POST to `/repos/<namespace>/docs` when the remote id of the record is zero,
and otherwise a PUT to `/repos/<namespace>/docs/<id>` with the current remote
id of the record in decimal; the call succeeds exactly when the reply decodes,
and then the remote id of the record is the id of the reply. -/
theorem Save_one_remote_call (cfg : Config) (lib : Lib) (clock : List Request → Time)
    (y : Yuque) (body : String) (b : Book) (p : Process)
    (hrun : p.panicked = false)
    (hurl : lib.urlParse
      (if b.Id = 0 then y.baseUri ++ ("/repos/" ++ cfg.baseNamespace ++ "/docs")
        else y.baseUri ++ ("/repos/" ++ cfg.baseNamespace ++ "/docs/" ++ toString b.Id))
      = true) :
    ∃ req : Request,
      (y.Save cfg lib clock body b p).proc = { sent := p.sent ++ [req], panicked := false } ∧
      req.Body = body ∧
      req.Header = [("User-Agent", "PHP后端规范"), ("X-Auth-Token", cfg.token),
        ("Content-Type", "application/json")] ∧
      (if b.Id = 0 then
          req.Method = "POST" ∧
          req.URL = y.baseUri ++ ("/repos/" ++ cfg.baseNamespace ++ "/docs")
        else
          req.Method = "PUT" ∧
          req.URL = y.baseUri ++ ("/repos/" ++ cfg.baseNamespace ++ "/docs/" ++ toString b.Id)) ∧
      (∀ data, y.client p.sent req = .decoded data →
        (y.Save cfg lib clock body b p).err = none ∧
        (y.Save cfg lib clock body b p).book.Id = data.Id) ∧
      ((y.Save cfg lib clock body b p).err = none →
        ∃ data, y.client p.sent req = .decoded data) := by
  have hurl' : lib.urlParse (saveRequest cfg y body b).URL = true := hurl
  have hp : ({ p with sent := p.sent ++ [saveRequest cfg y body b] } : Process) =
      { sent := p.sent ++ [saveRequest cfg y body b], panicked := false } := by
    rw [← hrun]
  refine ⟨saveRequest cfg y body b, ?_, rfl, rfl, ?_, ?_, ?_⟩
  · rw [Save_eq cfg lib clock y body b p hrun hurl', ← hp]
    cases y.client p.sent (saveRequest cfg y body b) <;> rfl
  · unfold saveRequest
    by_cases h : b.Id = 0 <;> simp [h]
  · intro data hd
    rw [Save_eq cfg lib clock y body b p hrun hurl', hd]
    exact ⟨rfl, rfl⟩
  · rw [Save_eq cfg lib clock y body b p hrun hurl']
    cases h : y.client p.sent (saveRequest cfg y body b) <;> simp

/-- C4, a run of `Save_one_remote_call`: for the record with remote id 42 one
PUT goes to `https://www.yuque.com/api/v2/repos/tests/sync/docs/42`, and for a
record with remote id zero one POST goes to
`https://www.yuque.com/api/v2/repos/tests/sync/docs`. -/
theorem Save_one_remote_call_witness :
    ((Yuque.Save sampleConfig sampleLib (fun _ => 2)
        (NewYuque sampleConfig.baseApiUrl (fun _ _ => .decoded { Id := 42 })) "body"
        { sampleBook with Id := 42 } {}).proc.sent.map (fun r => (r.Method, r.URL))
      = [("PUT", "https://www.yuque.com/api/v2/repos/tests/sync/docs/42")] ∧
     (Yuque.Save sampleConfig sampleLib (fun _ => 2)
        (NewYuque sampleConfig.baseApiUrl (fun _ _ => .decoded { Id := 7 })) "body"
        sampleBook {}).proc.sent.map (fun r => (r.Method, r.URL))
      = [("POST", "https://www.yuque.com/api/v2/repos/tests/sync/docs")]) ∧
    ∃ req : Request,
      (Yuque.Save sampleConfig sampleLib (fun _ => 2)
        (NewYuque sampleConfig.baseApiUrl (fun _ _ => .decoded { Id := 42 })) "body"
        { sampleBook with Id := 42 } {}).proc = { sent := [req], panicked := false } ∧
      req.Method = "PUT" ∧
      req.URL = "https://www.yuque.com/api/v2/repos/tests/sync/docs/42" := by
  refine ⟨by decide, ?_⟩
  obtain ⟨req, h1, _, _, h4, _⟩ := Save_one_remote_call sampleConfig sampleLib (fun _ => 2)
    (NewYuque sampleConfig.baseApiUrl (fun _ _ => .decoded { Id := 42 })) "body"
    { sampleBook with Id := 42 } {} rfl (by decide)
  refine ⟨req, h1, ?_⟩
  have h5 : ¬ ({ sampleBook with Id := 42 } : Book).Id = 0 := by decide
  rw [if_neg h5] at h4
  exact ⟨h4.1, h4.2.trans (by decide)⟩

/-- C4 (the claim fails): with `BASE_API_URL=127.0.0.1:1` the URL of the call has
no scheme and a colon in its first path segment, `url.Parse` rejects it,
`http.NewRequest` returns the nil request, and `Yuque.Save` panics in
`handleRequest` before `client.Do`: no remote call is issued, for the record
with remote id 42 and for the record with remote id zero. -/
theorem Save_panics_on_rejected_url :
    malformedConfig.baseApiUrl = "127.0.0.1:1" ∧
    sampleLib.urlParse "127.0.0.1:1/repos/tests/sync/docs/42" = false ∧
    sampleLib.urlParse "127.0.0.1:1/repos/tests/sync/docs" = false ∧
    (Yuque.Save malformedConfig sampleLib (fun _ => 2)
        (NewYuque malformedConfig.baseApiUrl (fun _ _ => .decoded { Id := 42 })) "body"
        { sampleBook with Id := 42 } {}).proc = { sent := [], panicked := true } ∧
    (Yuque.Save malformedConfig sampleLib (fun _ => 2)
        (NewYuque malformedConfig.baseApiUrl (fun _ _ => .decoded { Id := 7 })) "body"
        sampleBook {}).proc = { sent := [], panicked := true } := by
  decide

/-- A whole run over a directory with the one file `a.md`: with the default
base URL the sync pass sends one POST and saves the record with the remote id
of the reply; with `BASE_API_URL=127.0.0.1:1` the process panics in the sync
pass, sends nothing and saves nothing. -/
theorem main_sync_one_file :
    ((main sampleConfig sampleLib .shared oneFileWorld [ "yuque-sync", "sync"]).sent.map
        (fun r => (r.Method, r.URL))
      = [("POST", "https://www.yuque.com/api/v2/repos/tests/sync/docs")] ∧
     (main sampleConfig sampleLib .shared oneFileWorld [ "yuque-sync", "sync"]).panicked = false ∧
     (elems (main sampleConfig sampleLib .shared oneFileWorld
        [ "yuque-sync", "sync"]).books.books).map (fun b => (b.Id, b.Title)) = [(7, "A")] ∧
     (main sampleConfig sampleLib .shared oneFileWorld
        [ "yuque-sync", "sync"]).saved.map Except.toOption
      = some (some ("/home/u/docs/book.json", "[<md5(a.md)>]"))) ∧
    (main malformedConfig sampleLib .shared oneFileWorld [ "yuque-sync", "sync"]).panicked = true ∧
    (main malformedConfig sampleLib .shared oneFileWorld [ "yuque-sync", "sync"]).sent = [] ∧
    (main malformedConfig sampleLib .shared oneFileWorld
      [ "yuque-sync", "sync"]).saved.isNone = true := by
  decide

/-- C10 (the code resets the id): for a record with remote id 42, whose call
`http.NewRequest` accepts, and a reply that decodes with no `data.id` (so
`resp.Data.Id` is zero), `Yuque.Save` returns no error, does not panic, and
leaves the record with remote id zero. -/
theorem Save_resets_remote_id (cfg : Config) (lib : Lib) (clock : List Request → Time)
    (baseUri body : String) (b : Book) (data : DocDetailSerializer) (p : Process)
    (hrun : p.panicked = false)
    (hurl : lib.urlParse
      (baseUri ++ ("/repos/" ++ cfg.baseNamespace ++ "/docs/" ++ toString (42 : Int))) = true) :
    (Yuque.Save cfg lib clock ⟨baseUri, fun _ _ => .decoded { data with Id := 0 }⟩ body
        { b with Id := 42 } p).err = none ∧
    (Yuque.Save cfg lib clock ⟨baseUri, fun _ _ => .decoded { data with Id := 0 }⟩ body
        { b with Id := 42 } p).proc.panicked = false ∧
    (Yuque.Save cfg lib clock ⟨baseUri, fun _ _ => .decoded { data with Id := 0 }⟩ body
        { b with Id := 42 } p).book.Id = 0 := by
  rw [Save_eq cfg lib clock _ body _ p hrun (by simpa [saveRequest] using hurl)]
  exact ⟨rfl, hrun, rfl⟩

/-- C10, a run of `Save_resets_remote_id`: the PUT for the record with remote id
42 goes to `https://www.yuque.com/api/v2/repos/tests/sync/docs/42`, the reply
decodes without `data.id`, and the record is left with remote id zero. -/
theorem Save_resets_remote_id_witness :
    (Yuque.Save sampleConfig sampleLib (fun _ => 2)
        ⟨"https://www.yuque.com/api/v2", fun _ _ => .decoded { Id := 0 }⟩ "body"
        { sampleBook with Id := 42 } {}).book.Id = 0 :=
  (Save_resets_remote_id sampleConfig sampleLib (fun _ => 2) "https://www.yuque.com/api/v2"
    "body" sampleBook {} {} rfl (by decide)).2.2

theorem takeWhile_length_le {α : Type} (p : α → Bool) (l : List α) :
    (l.takeWhile p).length ≤ l.length := by
  induction l with
  | nil => simp
  | cons a l ih =>
    rw [List.takeWhile_cons]
    split
    · simp; omega
    · simp

theorem takeWhile_eq_of_length {α : Type} (p : α → Bool) (l : List α)
    (h : ¬ (l.takeWhile p).length < l.length) : l.takeWhile p = l := by
  induction l with
  | nil => rfl
  | cons a l ih =>
    rw [List.takeWhile_cons] at h ⊢
    split
    · rename_i hp
      simp only [hp, if_true, List.length_cons] at h
      rw [ih (by omega)]
    · rename_i hp
      simp [hp] at h

theorem not_mem_takeWhile_ne {l : List Char} (c : Char) :
    c ∉ l.takeWhile (fun x => x != c) := by
  intro h
  have := List.mem_takeWhile_imp h
  simp at this

theorem ReadLine_progress (rest : List Char) (h : (ReadLine rest).eof = false) :
    (ReadLine rest).rest.length < rest.length := by
  unfold ReadLine ReadSlice at *
  have hb : defaultBufSize = 4096 := rfl
  by_cases h1 : (rest.takeWhile (fun c => c != '\n')).length < rest.length ∧
      (rest.takeWhile (fun c => c != '\n')).length < defaultBufSize
  · simp only [h1, and_self, if_true] at h ⊢
    split <;> (try split_ifs) <;> simp [List.length_drop] <;> omega
  · simp only [h1, if_false] at h ⊢
    by_cases h2 : defaultBufSize ≤ rest.length
    · simp only [h2, if_true] at h ⊢
      split <;> simp [List.length_drop] <;> omega
    · simp only [h2, if_false] at h ⊢
      by_cases h3 : rest = []
      · simp [h3] at h
      · have : 0 < rest.length := List.length_pos.mpr h3
        simp only [h3, if_false]
        split <;> try split
        all_goals simp
        all_goals exact this

theorem readLoop_isSome (fuel : Nat) :
    ∀ (idx : Nat) (title : String) (content rest : List Char), rest.length < fuel →
      (readLoop fuel idx title content rest).isSome = true := by
  induction fuel with
  | zero => intro _ _ _ rest h; omega
  | succ n ih =>
    intro idx title content rest h
    unfold readLoop
    by_cases he : (ReadLine rest).eof = true
    · simp [he]
    · simp only [he]
      have := ReadLine_progress rest (by simpa using he)
      exact ih _ _ _ _ (by omega)

theorem readLoop_title (fuel : Nat) :
    ∀ (idx : Nat) (title : String) (content rest : List Char) (r : String × String),
      0 < idx → readLoop fuel idx title content rest = some r → r.1 = title := by
  induction fuel with
  | zero => intro _ _ _ _ _ _ h; simp [readLoop] at h
  | succ n ih =>
    intro idx title content rest r hidx h
    unfold readLoop at h
    have hi : ¬ idx = 0 := by omega
    simp only [hi, if_false] at h
    by_cases he : (ReadLine rest).eof = true
    · simp only [he, if_true, Option.some.injEq] at h
      rw [← h]
    · simp only [he] at h
      exact ih _ _ _ _ _ (by omega) h

/-- The title that the reading loop computes: the result of the first `ReadLine`
with every `#`, every space and every newline deleted. -/
theorem readTitleAndContent_title (data : String) :
    (readTitleAndContent data).1 =
      stringsRemoveAll (stringsRemoveAll (stringsRemoveAll ⟨(ReadLine data.data).line⟩ '#') ' ')
        '\n' := by
  unfold readTitleAndContent readLoop
  simp only [if_true]
  by_cases he : (ReadLine data.data).eof = true
  · simp [he]
  · simp only [he]
    have hp := ReadLine_progress data.data (by simpa using he)
    have hs := readLoop_isSome data.data.length 1
      (stringsRemoveAll (stringsRemoveAll (stringsRemoveAll ⟨(ReadLine data.data).line⟩ '#') ' ')
        '\n') ([] ++ (ReadLine data.data).line ++ [ '\n']) (ReadLine data.data).rest hp
    obtain ⟨r, hr⟩ := Option.isSome_iff_exists.mp hs
    have ht := readLoop_title _ _ _ _ _ r (by omega) hr
    simp only [Nat.zero_add] at hr ⊢
    rw [hr]
    exact ht

theorem ReadLine_line_of_short (rest : List Char)
    (h : (rest.takeWhile (fun c => c != '\n')).length < defaultBufSize) :
    (ReadLine rest).line = (firstLine ⟨rest⟩).data := by
  have hno : '\n' ∉ rest.takeWhile (fun c => c != '\n') := not_mem_takeWhile_ne '\n'
  unfold ReadLine ReadSlice firstLine
  by_cases h1 : (rest.takeWhile (fun c => c != '\n')).length < rest.length
  · simp only [h1, h, and_self, if_true, true_and]
    have e1 : (rest.takeWhile (fun c => c != '\n') ++ [ '\n']) ≠ [] := by simp
    simp only [e1, if_false, List.getLast?_concat, if_true, List.dropLast_concat]
    split_ifs <;> rfl
  · have he := takeWhile_eq_of_length _ _ h1
    rw [he] at h hno
    have h2 : ¬ defaultBufSize ≤ rest.length := by omega
    simp only [he, lt_self_iff_false, false_and, if_false, h2]
    by_cases h3 : rest = []
    · simp [h3]
    · simp only [h3, if_false]
      have h4 : rest.getLast? ≠ some '\n' := by
        intro h5
        exact hno (List.mem_of_getLast?_eq_some h5)
      simp [h4]

theorem firstLine_no_newline (data : String) : '\n' ∉ (firstLine data).data := by
  have hno : '\n' ∉ data.data.takeWhile (fun c => c != '\n') := not_mem_takeWhile_ne '\n'
  unfold firstLine
  dsimp only
  split_ifs
  · intro h
    exact hno (List.mem_of_mem_dropLast h)
  · exact hno

theorem firstLine_length (data : String) :
    (data.data.takeWhile (fun c => c != '\n')).length ≤ (firstLine data).data.length + 1 := by
  unfold firstLine
  dsimp only
  split_ifs <;> simp <;> omega

theorem saveYuQue_eq (cfg : Config) (lib : Lib) (readFile : String → Option String)
    (clock : List Request → Time) (y : Yuque) (info : FileInfo) (dir : String) (b : Book)
    (p : Process) (data : String)
    (hopen : readFile (pathJoin [dir, info.Name]) = some data) :
    saveYuQue cfg lib readFile clock y info dir b p =
      ((y.Save cfg lib clock
          (lib.marshalBody
            { Title := (readTitleAndContent data).1, Public := 0, Slug := b.Slug,
              Format := "markdown", Body := (readTitleAndContent data).2 })
          { b with Title := (readTitleAndContent data).1 } p).book,
       (y.Save cfg lib clock
          (lib.marshalBody
            { Title := (readTitleAndContent data).1, Public := 0, Slug := b.Slug,
              Format := "markdown", Body := (readTitleAndContent data).2 })
          { b with Title := (readTitleAndContent data).1 } p).proc) := by
  unfold saveYuQue
  dsimp only
  rw [hopen]

theorem Save_title (cfg : Config) (lib : Lib) (clock : List Request → Time) (y : Yuque)
    (body : String) (b : Book) (p : Process) :
    (y.Save cfg lib clock body b p).book.Title = b.Title := by
  rcases Save_cases cfg lib clock y body b p with ⟨q, h⟩ | ⟨err, q, h⟩ | ⟨data, q, h⟩ <;>
    rw [h]

theorem Save_err_book (cfg : Config) (lib : Lib) (clock : List Request → Time) (y : Yuque)
    (body : String) (b : Book) (p : Process) (err : String)
    (h : (y.Save cfg lib clock body b p).err = some err) :
    (y.Save cfg lib clock body b p).book = b := by
  rcases Save_cases cfg lib clock y body b p with ⟨q, h'⟩ | ⟨err', q, h'⟩ | ⟨data, q, h'⟩
  · rw [h']
  · rw [h']
  · rw [h'] at h
    simp at h

/-- C5 (as amended): when the file opens and its first line is shorter than
4095 bytes, the title that the handler of `saveYuQue` gives the record is the
first line with every `#` and every space deleted, wherever they stand, and
every other character kept in order. -/
theorem saveYuQue_title (cfg : Config) (lib : Lib) (readFile : String → Option String)
    (clock : List Request → Time) (y : Yuque) (info : FileInfo) (dir : String) (b : Book)
    (sent : Process) (data : String)
    (hopen : readFile (pathJoin [dir, info.Name]) = some data)
    (hshort : (firstLine data).data.length + 1 < defaultBufSize) :
    (saveYuQue cfg lib readFile clock y info dir b sent).1.Title =
      ⟨(firstLine data).data.filter (fun c => c != '#' && c != ' ')⟩ := by
  rw [saveYuQue_eq cfg lib readFile clock y info dir b sent data hopen]
  simp only [Save_title]
  rw [readTitleAndContent_title, ReadLine_line_of_short]
  · have hno := firstLine_no_newline data
    unfold stringsRemoveAll
    simp only [List.filter_filter]
    congr 1
    apply List.filter_congr
    intro c hc
    have : c ≠ '\n' := fun h => hno (h ▸ hc)
    have h1 : (c != '\n') = true := bne_iff_ne.mpr this
    rw [h1, Bool.true_and, Bool.and_comm]
  · have := firstLine_length data
    omega

/-- C5, a run of `saveYuQue_title`: the first line `# Hello World` gives the
title `HelloWorld`. -/
theorem saveYuQue_title_witness :
    (saveYuQue sampleConfig sampleLib (fun _ => some "# Hello World\nbody\n") (fun _ => 2)
        ⟨"", fun _ _ => .doErr "timeout"⟩ ⟨"notes.md", false⟩ "." sampleBook {}).1.Title
      = "HelloWorld" :=
  (saveYuQue_title sampleConfig sampleLib (fun _ => some "# Hello World\nbody\n") (fun _ => 2)
    ⟨"", fun _ _ => .doErr "timeout"⟩ ⟨"notes.md", false⟩ "." sampleBook {}
    "# Hello World\nbody\n" rfl (by decide)).trans (by decide)

/-- C5 (the claim fails): for a file whose first line is `# C# notes` the
handler of `saveYuQue` gives the title `Cnotes`, while the first line without
its leading heading markers and without whitespace is `C#notes`; and for the
first line `# a<tab>b` it gives `a<tab>b`, the tab kept, while the first line
without whitespace is `ab`. -/
theorem saveYuQue_title_drops_inner_marker :
    (saveYuQue sampleConfig sampleLib (fun _ => some "# C# notes\nbody\n") (fun _ => 2)
        ⟨"", fun _ _ => .decoded { Id := 7 }⟩ ⟨"notes.md", false⟩ "." sampleBook {}).1.Title
      = "Cnotes" ∧
    claimedTitle (firstLine "# C# notes\nbody\n") = "C#notes" ∧
    (saveYuQue sampleConfig sampleLib (fun _ => some "# a\tb\n") (fun _ => 2)
        ⟨"", fun _ _ => .decoded { Id := 7 }⟩ ⟨"notes.md", false⟩ "." sampleBook {}).1.Title
      = "a\tb" ∧
    claimedTitle (firstLine "# a\tb\n") = "ab" := by
  decide

theorem readEachLoop_eq_callEach {σ : Type} (stat : String → Option FileInfo)
    (handle : FileInfo → String → Book → σ → Book × σ) (l : List Book) :
    ∀ (acc : List Book) (s : σ),
      readEachLoop stat handle l acc s =
        (acc ++ (callEach handle (liveRecords stat l) s).1,
          (callEach handle (liveRecords stat l) s).2) := by
  induction l with
  | nil => intro acc s; simp [readEachLoop, liveRecords, callEach]
  | cons b rest ih =>
    intro acc s
    unfold readEachLoop liveRecords
    cases hs : stat (pathJoin [b.Dir, b.Name]) with
    | none =>
      simp only [List.filterMap_cons, hs, Option.map_none']
      exact ih acc s
    | some info =>
      simp only [List.filterMap_cons, hs, Option.map_some', callEach]
      rw [ih]
      simp [liveRecords]

theorem callEach_append {σ : Type} (handle : FileInfo → String → Book → σ → Book × σ)
    (l₁ l₂ : List (FileInfo × Book)) :
    ∀ s : σ, callEach handle (l₁ ++ l₂) s =
      ((callEach handle l₁ s).1 ++ (callEach handle l₂ (callEach handle l₁ s).2).1,
        (callEach handle l₂ (callEach handle l₁ s).2).2) := by
  induction l₁ with
  | nil => intro s; simp [callEach]
  | cons p rest ih =>
    intro s
    obtain ⟨info, b⟩ := p
    rw [List.cons_append]
    simp only [callEach]
    rw [ih]
    rfl

theorem callEach_logged {σ : Type} (handle : FileInfo → String → Book → σ → Book × σ)
    (l : List (FileInfo × Book)) :
    ∀ (s : σ) (log : List (FileInfo × String × Book)),
      callEach (logged handle) l (s, log) =
        ((callEach handle l s).1,
          ((callEach handle l s).2, log ++ l.map (fun p => (p.1, p.2.Dir, p.2)))) := by
  induction l with
  | nil => intro s log; simp [callEach]
  | cons p rest ih =>
    intro s log
    obtain ⟨info, b⟩ := p
    simp only [callEach, logged, ih, List.map_cons, List.append_assoc, List.singleton_append]

theorem callEach_length {σ : Type} (handle : FileInfo → String → Book → σ → Book × σ)
    (l : List (FileInfo × Book)) :
    ∀ s : σ, (callEach handle l s).1.length = l.length := by
  induction l with
  | nil => intro s; rfl
  | cons p rest ih =>
    intro s
    obtain ⟨info, b⟩ := p
    simp only [callEach, List.length_cons, ih]

theorem callEach_keys {σ : Type} (handle : FileInfo → String → Book → σ → Book × σ)
    (hkeep : ∀ info dir b s, (handle info dir b s).1.Dir = b.Dir ∧
      (handle info dir b s).1.Name = b.Name)
    (l : List (FileInfo × Book)) :
    ∀ s : σ, (callEach handle l s).1.map (fun b => (b.Dir, b.Name)) =
      l.map (fun p => (p.2.Dir, p.2.Name)) := by
  induction l with
  | nil => intro s; rfl
  | cons p rest ih =>
    intro s
    obtain ⟨info, b⟩ := p
    simp only [callEach, List.map_cons, ih, (hkeep info b.Dir b s).1, (hkeep info b.Dir b s).2]

theorem liveRecords_books (stat : String → Option FileInfo) (l : List Book) :
    (liveRecords stat l).map Prod.snd =
      l.filter (fun b => (stat (pathJoin [b.Dir, b.Name])).isSome) := by
  induction l with
  | nil => rfl
  | cons b rest ih =>
    unfold liveRecords at ih ⊢
    cases hs : stat (pathJoin [b.Dir, b.Name]) <;>
      simp [List.filterMap_cons, List.filter_cons, hs, ih]

theorem liveRecords_info (stat : String → Option FileInfo) (l : List Book) :
    ∀ p ∈ liveRecords stat l, stat (pathJoin [p.2.Dir, p.2.Name]) = some p.1 := by
  intro p hp
  unfold liveRecords at hp
  obtain ⟨b, _, hb⟩ := List.mem_filterMap.mp hp
  cases hs : stat (pathJoin [b.Dir, b.Name]) with
  | none => simp [hs] at hb
  | some info =>
    simp only [hs, Option.map_some', Option.some.injEq] at hb
    subst hb
    exact hs

/-- C2: `Books.ReadEach` calls the handler exactly on the records whose backing
file `path.Join(Dir, Name)` exists, once each and in the order of the registry
(it is the run of the handler over those records, and the log of the calls is
the list of those records); the retained list holds one record for each of
them, in that order, as the handler left it; and when the handler changes
neither `Dir` nor `Name`, the retained records have the `Dir` and `Name` of
the records whose file exists, so the file of every retained record exists. -/
theorem ReadEach_retains_live {σ : Type} (stat : String → Option FileInfo)
    (handle : FileInfo → String → Book → σ → Book × σ) (bs : Books) (s : σ) :
    (liveRecords stat (elems bs.books)).map Prod.snd =
        (elems bs.books).filter (fun b => (stat (pathJoin [b.Dir, b.Name])).isSome) ∧
    (∀ p ∈ liveRecords stat (elems bs.books), stat (pathJoin [p.2.Dir, p.2.Name]) = some p.1) ∧
    (bs.ReadEach stat handle s).1.books =
        some (callEach handle (liveRecords stat (elems bs.books)) s).1 ∧
    (bs.ReadEach stat handle s).2 = (callEach handle (liveRecords stat (elems bs.books)) s).2 ∧
    (bs.ReadEach stat (logged handle) (s, [])).2.2 =
        (liveRecords stat (elems bs.books)).map (fun p => (p.1, p.2.Dir, p.2)) ∧
    (elems (bs.ReadEach stat handle s).1.books).length =
        ((elems bs.books).filter (fun b => (stat (pathJoin [b.Dir, b.Name])).isSome)).length ∧
    ((∀ info dir b s, (handle info dir b s).1.Dir = b.Dir ∧ (handle info dir b s).1.Name = b.Name) →
      (elems (bs.ReadEach stat handle s).1.books).map (fun b => (b.Dir, b.Name)) =
          ((elems bs.books).filter
            (fun b => (stat (pathJoin [b.Dir, b.Name])).isSome)).map (fun b => (b.Dir, b.Name)) ∧
      ∀ b ∈ elems (bs.ReadEach stat handle s).1.books,
        (stat (pathJoin [b.Dir, b.Name])).isSome = true) := by
  have hbooks : (bs.ReadEach stat handle s).1.books =
      some (callEach handle (liveRecords stat (elems bs.books)) s).1 := by
    unfold Books.ReadEach
    simp [readEachLoop_eq_callEach]
  have hkeys : ∀ (hkeep : ∀ info dir b s, (handle info dir b s).1.Dir = b.Dir ∧
      (handle info dir b s).1.Name = b.Name),
      (elems (bs.ReadEach stat handle s).1.books).map (fun b => (b.Dir, b.Name)) =
          ((elems bs.books).filter
            (fun b => (stat (pathJoin [b.Dir, b.Name])).isSome)).map
              (fun b => (b.Dir, b.Name)) := by
    intro hkeep
    rw [hbooks, ← liveRecords_books]
    simp only [elems, Option.getD_some, List.map_map]
    exact callEach_keys handle hkeep _ s
  refine ⟨liveRecords_books stat _, liveRecords_info stat _, hbooks, ?_, ?_, ?_, ?_⟩
  · unfold Books.ReadEach
    simp [readEachLoop_eq_callEach]
  · unfold Books.ReadEach
    simp [readEachLoop_eq_callEach, callEach_logged]
  · rw [hbooks, ← liveRecords_books]
    simp [elems, callEach_length]
  · intro hkeep
    refine ⟨hkeys hkeep, ?_⟩
    intro b hb
    have hm : (b.Dir, b.Name) ∈
        (elems (bs.ReadEach stat handle s).1.books).map (fun b => (b.Dir, b.Name)) :=
      List.mem_map.mpr ⟨b, hb, rfl⟩
    rw [hkeys hkeep] at hm
    obtain ⟨b', hb', he⟩ := List.mem_map.mp hm
    have := (List.mem_filter.mp hb').2
    simp only [Prod.mk.injEq] at he
    rw [← he.1, ← he.2]
    exact this

/-- C2, a run of `ReadEach_retains_live`: of three records the one whose file
is missing is dropped, and a handler that only sets the title leaves `Dir` and
`Name` of the others as they were. -/
theorem ReadEach_retains_live_witness :
    (elems (Books.ReadEach sampleStat
        (fun _ _ b (n : Nat) => ({ b with Title := "t" }, n + 1))
        { books := some [sampleBook, { sampleBook with Name := "b.md" },
            { sampleBook with Name := "c.md" }] } 0).1.books).map (fun b => (b.Dir, b.Name))
      = [(".", "a.md"), (".", "c.md")] :=
  ((ReadEach_retains_live sampleStat (fun _ _ b (n : Nat) => ({ b with Title := "t" }, n + 1))
      { books := some [sampleBook, { sampleBook with Name := "b.md" },
          { sampleBook with Name := "c.md" }] } 0).2.2.2.2.2.2
    (fun _ _ _ _ => ⟨rfl, rfl⟩)).1.trans (by decide)

theorem readEachLoop_append {σ : Type} (stat : String → Option FileInfo)
    (handle : FileInfo → String → Book → σ → Book × σ) (l₁ l₂ : List Book) (s : σ) :
    readEachLoop stat handle (l₁ ++ l₂) [] s =
      ((readEachLoop stat handle l₁ [] s).1 ++
          (readEachLoop stat handle l₂ [] (readEachLoop stat handle l₁ [] s).2).1,
        (readEachLoop stat handle l₂ [] (readEachLoop stat handle l₁ [] s).2).2) := by
  simp only [readEachLoop_eq_callEach, liveRecords, List.filterMap_append, callEach_append,
    List.nil_append]

/-- C3 (as amended): when `Yuque.Save` returns an error inside the handler of
`saveYuQue`, the record that `Books.ReadEach` retains for the document is the
record as it was before the step in every field but the title, and its title
is the title derived from the file. -/
theorem ReadEach_failed_save_changes_title_only (cfg : Config) (lib : Lib)
    (stat : String → Option FileInfo) (readFile : String → Option String)
    (clock : List Request → Time) (y : Yuque) (bs : Books) (pre post : List Book) (b : Book)
    (info : FileInfo) (data err : String) (sent : Process)
    (hbooks : elems bs.books = pre ++ b :: post)
    (hstat : stat (pathJoin [b.Dir, b.Name]) = some info)
    (hopen : readFile (pathJoin [b.Dir, info.Name]) = some data)
    (hfail : (y.Save cfg lib clock
        (lib.marshalBody
          { Title := (readTitleAndContent data).1, Public := 0, Slug := b.Slug,
            Format := "markdown", Body := (readTitleAndContent data).2 })
        { b with Title := (readTitleAndContent data).1 }
        (readEachLoop stat (saveYuQue cfg lib readFile clock y) pre [] sent).2).err = some err) :
    (bs.ReadEach stat (saveYuQue cfg lib readFile clock y) sent).1.books =
      some ((readEachLoop stat (saveYuQue cfg lib readFile clock y) pre [] sent).1 ++
        { b with Title := (readTitleAndContent data).1 } ::
        (readEachLoop stat (saveYuQue cfg lib readFile clock y) post []
          (saveYuQue cfg lib readFile clock y info b.Dir b
            (readEachLoop stat (saveYuQue cfg lib readFile clock y) pre [] sent).2).2).1) := by
  unfold Books.ReadEach
  rw [hbooks, readEachLoop_append]
  have hb := Save_err_book _ _ _ _ _ _ _ _ hfail
  have hs := saveYuQue_eq cfg lib readFile clock y info b.Dir b
    (readEachLoop stat (saveYuQue cfg lib readFile clock y) pre [] sent).2 data hopen
  rw [hb] at hs
  simp only [readEachLoop, hstat]
  rw [hs]
  simp only [List.nil_append]
  rw [readEachLoop_eq_callEach stat _ post [_]]
  rw [readEachLoop_eq_callEach stat _ post []]
  simp only [List.nil_append, List.singleton_append]

/-- C3, a run of `ReadEach_failed_save_changes_title_only`: the create call
for `a.md` times out, and the record is retained with the new title. -/
theorem ReadEach_failed_save_witness :
    (Books.ReadEach sampleStat
        (saveYuQue sampleConfig sampleLib (fun _ => some "# Hello\n") (fun _ => 2)
          ⟨"", fun _ _ => .doErr "timeout"⟩)
        { books := some [sampleBook] } {}).1.books
      = some [{ sampleBook with Title := "Hello" }] :=
  (ReadEach_failed_save_changes_title_only sampleConfig sampleLib sampleStat
    (fun _ => some "# Hello\n") (fun _ => 2) ⟨"", fun _ _ => .doErr "timeout"⟩
    { books := some [sampleBook] } [] [] sampleBook ⟨"a.md", false⟩ "# Hello\n" "timeout" {}
    rfl (by decide) rfl (by decide)).trans (by decide)

/-- C3 (the claim fails): the create call for the record of `a.md`, whose title
is empty, fails with a transport error, `Yuque.Save` returns that error, and
the record retained by `Books.ReadEach` has the title `Hello`: it is not the
record as it was before the step. -/
theorem ReadEach_failed_save_changes_title :
    (Yuque.Save sampleConfig sampleLib (fun _ => 2) ⟨"", fun _ _ => .doErr "timeout"⟩
        (sampleLib.marshalBody ⟨"Hello", sampleBook.Slug, 0, "markdown", "# Hello\n"⟩)
        { sampleBook with Title := "Hello" } {}).err = some "timeout" ∧
    sampleBook.Title = "" ∧
    (elems (Books.ReadEach sampleStat
        (saveYuQue sampleConfig sampleLib (fun _ => some "# Hello\n") (fun _ => 2)
          ⟨"", fun _ _ => .doErr "timeout"⟩)
        { books := some [sampleBook] } {}).1.books).map (fun b => b.Title) = [ "Hello"] ∧
    (Books.ReadEach sampleStat
        (saveYuQue sampleConfig sampleLib (fun _ => some "# Hello\n") (fun _ => 2)
          ⟨"", fun _ _ => .doErr "timeout"⟩)
        { books := some [sampleBook] } {}).1.books ≠ some [sampleBook] := by
  decide

theorem isIgnores_bare (cfg : Config) (ignores : List String) (name parent : String)
    (hbare : ∀ r ∈ ignores, stringsContains r '/' = false) :
    isIgnores cfg ignores name parent = ignores.contains name := by
  induction ignores with
  | nil => rfl
  | cons r rest ih =>
    have hr := hbare r (List.mem_cons_self _ _)
    have ih' := ih (fun r' h' => hbare r' (List.mem_cons_of_mem _ h'))
    unfold isIgnores
    simp only [hr, Bool.false_eq_true, if_false, ih', List.contains_cons]
    by_cases h : name = r
    · simp [h]
    · have : (name == r) = false := by simpa using h
      simp [h, this]

mutual
theorem filesBelow_ancestors (anc : List String) :
    ∀ (files : List Node) (f : List String × String), f ∈ filesBelow anc files →
      ∀ a ∈ anc, a ∈ f.1
  | [], f, h => by simp [filesBelow] at h
  | n :: rest, f, h => by
    rw [filesBelow, List.mem_append] at h
    cases h with
    | inl h => exact filesOf_ancestors anc n f h
    | inr h => exact filesBelow_ancestors anc rest f h
theorem filesOf_ancestors (anc : List String) :
    ∀ (n : Node) (f : List String × String), f ∈ filesOf anc n → ∀ a ∈ anc, a ∈ f.1
  | .file name _, f, h => by
    simp only [filesOf, List.mem_singleton] at h
    subst h
    exact fun a ha => ha
  | .dir name children, f, h => by
    rw [filesOf] at h
    intro a ha
    exact filesBelow_ancestors (anc ++ [name]) children f h a (List.mem_append_left _ ha)
end

theorem dirOf_snoc (anc : List String) (name : String) :
    pathJoin [dirOf anc, name] = dirOf (anc ++ [name]) := by
  simp [dirOf, List.foldl_append]

theorem eligible_all_ancestors (cfg : Config) (ignores : List String) (anc : List String)
    (name : String) (hanc : ∀ a ∈ anc, ignores.contains a = false) :
    eligible cfg ignores (anc, name) = (!ignores.contains name && isSupportSuffix cfg name) := by
  have : anc.all (fun a => !ignores.contains a) = true := by
    rw [List.all_eq_true]
    intro a ha
    rw [hanc a ha]
    rfl
  simp only [eligible, this, Bool.and_true]

mutual
theorem scanFiles_eq_foldl (cfg : Config) (ignores : List String)
    (hbare : ∀ r ∈ ignores, stringsContains r '/' = false) {σ : Type}
    (fileHandle : FileInfo → String → σ → σ) :
    ∀ (files : List Node) (anc : List String), (∀ a ∈ anc, ignores.contains a = false) →
      ∀ s : σ, scanFiles cfg ignores (dirOf anc) files fileHandle s =
        ((filesBelow anc files).filter (eligible cfg ignores)).foldl
          (fun s f => fileHandle ⟨f.2, false⟩ (dirOf f.1) s) s
  | [], anc, hanc, s => by simp [scanFiles, filesBelow]
  | n :: rest, anc, hanc, s => by
    rw [scanFiles, filesBelow, List.filter_append, List.foldl_append,
      scanEntry_eq_foldl cfg ignores hbare fileHandle n anc hanc s,
      scanFiles_eq_foldl cfg ignores hbare fileHandle rest anc hanc _]
theorem scanEntry_eq_foldl (cfg : Config) (ignores : List String)
    (hbare : ∀ r ∈ ignores, stringsContains r '/' = false) {σ : Type}
    (fileHandle : FileInfo → String → σ → σ) :
    ∀ (n : Node) (anc : List String), (∀ a ∈ anc, ignores.contains a = false) →
      ∀ s : σ, scanEntry cfg ignores (dirOf anc) n fileHandle s =
        ((filesOf anc n).filter (eligible cfg ignores)).foldl
          (fun s f => fileHandle ⟨f.2, false⟩ (dirOf f.1) s) s
  | .file name content, anc, hanc, s => by
    rw [scanEntry, isIgnores_bare cfg ignores name _ hbare, filesOf]
    simp only [List.filter_cons, List.filter_nil, eligible_all_ancestors cfg ignores anc name hanc,
      Node.info]
    cases ignores.contains name <;> cases isSupportSuffix cfg name <;> rfl
  | .dir name children, anc, hanc, s => by
    rw [scanEntry, isIgnores_bare cfg ignores name _ hbare, filesOf]
    cases hi : ignores.contains name with
    | true =>
      have hnone : (filesBelow (anc ++ [name]) children).filter (eligible cfg ignores) = [] := by
        rw [List.filter_eq_nil_iff]
        intro f hf
        have hmem := filesBelow_ancestors (anc ++ [name]) children f hf name (by simp)
        have hall : f.1.all (fun a => !ignores.contains a) = false := by
          rw [List.all_eq_false]
          exact ⟨name, hmem, by rw [hi]; decide⟩
        rw [eligible, hall]
        simp
      rw [hnone]
      rfl
    | false =>
      have hanc' : ∀ a ∈ anc ++ [name], ignores.contains a = false := by
        intro a ha
        rcases List.mem_append.mp ha with h | h
        · exact hanc a h
        · rw [List.mem_singleton.mp h]
          exact hi
      simp only [Bool.not_false, if_true]
      rw [dirOf_snoc]
      exact scanFiles_eq_foldl cfg ignores hbare fileHandle children (anc ++ [name]) hanc' s
end

theorem foldl_log {α β : Type} (g : α → β) (l : List α) :
    ∀ acc : List β, l.foldl (fun s f => s ++ [g f]) acc = acc ++ l.map g := by
  induction l with
  | nil => intro acc; simp
  | cons a l ih => intro acc; simp [ih]

/-- C7: with rules that hold no path separator, a scan from the root `.`
calls the handler once on each eligible file, in the order of the tree, and
on no other file: its result is the handler folded over the list of the files
whose own name and whose ancestor directory names equal no rule and whose
name ends with every allowed suffix; in particular the log of the calls is
that list, so it holds no file whose name, or the name of a directory above
it, equals a rule. -/
theorem scanFiles_calls_eligible (cfg : Config) (ignores : List String) (root : List Node)
    (hbare : ∀ r ∈ ignores, stringsContains r '/' = false) :
    (∀ (σ : Type) (fileHandle : FileInfo → String → σ → σ) (s : σ),
      scanFiles cfg ignores "." root fileHandle s =
        ((filesBelow [] root).filter (eligible cfg ignores)).foldl
          (fun s f => fileHandle ⟨f.2, false⟩ (dirOf f.1) s) s) ∧
    scanFiles cfg ignores "." root (fun info dir log => log ++ [(info, dir)]) [] =
      ((filesBelow [] root).filter (eligible cfg ignores)).map
        (fun f => ((⟨f.2, false⟩ : FileInfo), dirOf f.1)) ∧
    (∀ call ∈ scanFiles cfg ignores "." root (fun info dir log => log ++ [(info, dir)]) [],
      ∃ f ∈ filesBelow [] root, call = ((⟨f.2, false⟩ : FileInfo), dirOf f.1) ∧
        f.2 ∉ ignores ∧ (∀ a ∈ f.1, a ∉ ignores) ∧
        ∀ suffix ∈ cfg.allowedSuffix, stringsHasSuffix f.2 suffix = true) := by
  have hgen : ∀ (σ : Type) (fileHandle : FileInfo → String → σ → σ) (s : σ),
      scanFiles cfg ignores "." root fileHandle s =
        ((filesBelow [] root).filter (eligible cfg ignores)).foldl
          (fun s f => fileHandle ⟨f.2, false⟩ (dirOf f.1) s) s := by
    intro σ fileHandle s
    exact scanFiles_eq_foldl cfg ignores hbare fileHandle root [] (by simp) s
  have hlog : scanFiles cfg ignores "." root (fun info dir log => log ++ [(info, dir)]) [] =
      ((filesBelow [] root).filter (eligible cfg ignores)).map
        (fun f => ((⟨f.2, false⟩ : FileInfo), dirOf f.1)) := by
    rw [hgen]
    exact (foldl_log (fun f : List String × String => ((⟨f.2, false⟩ : FileInfo), dirOf f.1))
      _ []).trans (by simp)
  refine ⟨hgen, hlog, ?_⟩
  intro call hcall
  rw [hlog] at hcall
  obtain ⟨f, hf, rfl⟩ := List.mem_map.mp hcall
  obtain ⟨hmem, helig⟩ := List.mem_filter.mp hf
  refine ⟨f, hmem, rfl, ?_, ?_, ?_⟩
  · simp [eligible] at helig
    exact helig.1.1
  · simp [eligible] at helig
    exact helig.1.2
  · simp [eligible, isSupportSuffix] at helig
    exact helig.2

/-- C7, a run of `scanFiles_calls_eligible`: with the rules `x` and `skip.md`
the handler is called on `a.md` and on `y/c.md` only. -/
theorem scanFiles_calls_eligible_witness :
    scanFiles sampleConfig [ "x", "skip.md"] "." sampleTree
        (fun info dir log => log ++ [(info, dir)]) []
      = [(⟨"a.md", false⟩, "."), (⟨"c.md", false⟩, "y")] :=
  (scanFiles_calls_eligible sampleConfig [ "x", "skip.md"] sampleTree (by decide)).2.1.trans
    (by decide)

/-- C6 (the code misses the rule): in a run started in `/home/u/docs` with no
environment variable set, the rule `sub/a.md` holds a path separator and
equals `path.Join("sub", "a.md")`, the path of the candidate `a.md` in `sub`
relative to the scan root, and `isIgnores` reports the candidate not excluded:
the scan from `.` hands the file to the handler. -/
theorem isIgnores_misses_path_rule :
    sampleConfig.baseDir = "/home/u/docs" ∧
    stringsContains "sub/a.md" '/' = true ∧
    pathJoin [ "sub", "a.md"] = "sub/a.md" ∧
    pathJoin [sampleConfig.baseDir, "sub/a.md"] = "/home/u/docs/sub/a.md" ∧
    isIgnores sampleConfig [ "sub/a.md"] "a.md" "sub" = false ∧
    scanFiles sampleConfig [ "sub/a.md"] "." [ .dir "sub" [ .file "a.md" ""]]
        (fun info dir log => log ++ [(info, dir)]) []
      = [(⟨"a.md", false⟩, "sub")] := by
  decide

theorem init_allowedSuffix (getenv : String → String) (getwd : String) :
    (init getenv getwd).allowedSuffix = [ ".md"] := by
  simp only [init]
  split_ifs <;> rfl

theorem cleanStep_out_ne_nil (rooted : Bool) (st : CleanState) (elem : List Char)
    (h : ∀ e ∈ st.out, e ≠ []) : ∀ e ∈ (cleanStep rooted st elem).out, e ≠ [] := by
  unfold cleanStep
  split_ifs with h1 h2 h3 h4 h5
  · exact h
  · exact h
  · intro e he
    exact h e (List.mem_of_mem_tail he)
  · intro e he
    rcases List.mem_cons.mp he with rfl | he
    · exact h1
    · exact h e he
  · exact h
  · intro e he
    rcases List.mem_cons.mp he with rfl | he
    · exact h1
    · exact h e he

theorem foldl_cleanStep_out_ne_nil (rooted : Bool) (elems : List (List Char)) :
    ∀ st : CleanState, (∀ e ∈ st.out, e ≠ []) →
      ∀ e ∈ (elems.foldl (cleanStep rooted) st).out, e ≠ [] := by
  induction elems with
  | nil => intro st h; exact h
  | cons x xs ih =>
    intro st h
    exact ih _ (cleanStep_out_ne_nil rooted st x h)

theorem joinWith_ne_nil (c : Char) (l : List (List Char)) (hl : l ≠ [])
    (h : ∀ e ∈ l, e ≠ []) : joinWith c l ≠ [] := by
  match l, hl, h with
  | [x], _, h => exact h x (List.mem_singleton.mpr rfl)
  | x :: y :: rest, _, h => simp [joinWith]

theorem cleanChars_ne_nil (p : List Char) : cleanChars p ≠ [] := by
  unfold cleanChars
  dsimp only
  split_ifs with h1 h2 h3
  · simp
  · simp
  · simp
  · apply joinWith_ne_nil
    · simpa using h3
    · intro e he
      exact foldl_cleanStep_out_ne_nil _ _ ⟨[], 0⟩ (by simp) e (List.mem_reverse.mp he)

theorem pathJoin_ne_empty (a b : String) (hb : b.data ≠ []) : pathJoin [a, b] ≠ "" := by
  unfold pathJoin
  intro h
  by_cases ha : a.data = []
  · simp only [List.map_cons, List.map_nil, List.filter_cons, ha, hb, ne_eq, not_true_eq_false,
      decide_False, decide_True, not_false_eq_true, Bool.false_eq_true, if_false, if_true,
      List.filter_nil] at h
    exact cleanChars_ne_nil _ (congrArg String.data h)
  · simp only [List.map_cons, List.map_nil, List.filter_cons, ha, hb, ne_eq,
      decide_True, not_false_eq_true, if_true, List.filter_nil] at h
    exact cleanChars_ne_nil _ (congrArg String.data h)

theorem splitOnChar_no_sep (c : Char) (l : List Char) : ∀ e ∈ splitOnChar c l, c ∉ e := by
  induction l with
  | nil => simp [splitOnChar]
  | cons x xs ih =>
    unfold splitOnChar
    split_ifs with hx
    · intro e he
      rcases List.mem_cons.mp he with rfl | he
      · simp
      · exact ih e he
    · cases hs : splitOnChar c xs with
      | nil =>
        intro e he
        simp only [List.mem_singleton] at he
        subst he
        simpa using fun h => hx h.symm
      | cons h t =>
        rw [hs] at ih
        intro e he
        rcases List.mem_cons.mp he with rfl | he
        · intro hc
          rcases List.mem_cons.mp hc with hc | hc
          · exact hx hc.symm
          · exact ih h (List.mem_cons_self _ _) hc
        · exact ih e (List.mem_cons_of_mem _ he)

theorem cleanStep_out_no_sep (rooted : Bool) (st : CleanState) (elem : List Char)
    (helem : '/' ∉ elem) (h : ∀ e ∈ st.out, '/' ∉ e) :
    ∀ e ∈ (cleanStep rooted st elem).out, '/' ∉ e := by
  unfold cleanStep
  split_ifs with h1 h2 h3 h4 h5
  · exact h
  · exact h
  · intro e he
    exact h e (List.mem_of_mem_tail he)
  · intro e he
    rcases List.mem_cons.mp he with rfl | he
    · exact helem
    · exact h e he
  · exact h
  · intro e he
    rcases List.mem_cons.mp he with rfl | he
    · exact helem
    · exact h e he

theorem foldl_cleanStep_out_no_sep (rooted : Bool) (elems : List (List Char))
    (helems : ∀ x ∈ elems, '/' ∉ x) :
    ∀ st : CleanState, (∀ e ∈ st.out, '/' ∉ e) →
      ∀ e ∈ (elems.foldl (cleanStep rooted) st).out, '/' ∉ e := by
  induction elems with
  | nil => intro st h; exact h
  | cons x xs ih =>
    intro st h
    exact ih (fun y hy => helems y (List.mem_cons_of_mem _ hy)) _
      (cleanStep_out_no_sep rooted st x (helems x (List.mem_cons_self _ _)) h)

theorem joinWith_head (c : Char) (x : List Char) (rest : List (List Char)) (hx : x ≠ []) :
    (joinWith c (x :: rest)).head? = x.head? := by
  cases rest with
  | nil => rfl
  | cons y ys =>
    cases x with
    | nil => exact absurd rfl hx
    | cons a as => rfl

theorem cleanChars_head_rooted (p : List Char) (h : p.head? = some '/') :
    (cleanChars p).head? = some '/' := by
  have hp : p ≠ [] := by
    intro h0
    rw [h0] at h
    simp at h
  unfold cleanChars
  simp [hp, h]

theorem cleanChars_head_unrooted (p : List Char) (h : p.head? ≠ some '/') :
    (cleanChars p).head? ≠ some '/' := by
  unfold cleanChars
  dsimp only
  split_ifs with h1 h2 h3
  · simp
  · simp only [decide_eq_true_eq] at h2
    exact absurd h2 h
  · simp
  · have hne := foldl_cleanStep_out_ne_nil (decide (p.head? = some '/')) (splitOnChar '/' p)
      ⟨[], 0⟩ (by simp)
    have hno := foldl_cleanStep_out_no_sep (decide (p.head? = some '/')) (splitOnChar '/' p)
      (splitOnChar_no_sep '/' p) ⟨[], 0⟩ (by simp)
    generalize (List.foldl (cleanStep (decide (p.head? = some '/'))) ⟨[], 0⟩
      (splitOnChar '/' p)).out = out at h3 hne hno
    cases hr : out.reverse with
    | nil => simp at hr; exact absurd hr h3
    | cons x rest =>
      have hx : x ∈ out := List.mem_reverse.mp (by rw [hr]; exact List.mem_cons_self _ _)
      rw [joinWith_head '/' x rest (hne x hx)]
      intro hh
      exact hno x hx (List.mem_of_mem_head? hh)

theorem pathJoin_head_rooted (a b : String) (h : a.data.head? = some '/') :
    (pathJoin [a, b]).data.head? = some '/' := by
  have ha : a.data ≠ [] := by
    intro h0
    rw [h0] at h
    simp at h
  unfold pathJoin
  by_cases hb : b.data = []
  · simp only [List.map_cons, List.map_nil, List.filter_cons, ha, hb, ne_eq, not_true_eq_false,
      decide_False, decide_True, not_false_eq_true, Bool.false_eq_true, if_false, if_true,
      List.filter_nil]
    exact cleanChars_head_rooted _ (by simpa [joinWith] using h)
  · simp only [List.map_cons, List.map_nil, List.filter_cons, ha, hb, ne_eq,
      decide_True, not_false_eq_true, if_true, List.filter_nil]
    apply cleanChars_head_rooted
    rw [joinWith, List.head?_append_of_ne_nil _ ha]
    exact h

theorem pathJoin_head_unrooted (a b : String) (ha : a.data ≠ [])
    (h : a.data.head? ≠ some '/') :
    (pathJoin [a, b]).data ≠ [] ∧ (pathJoin [a, b]).data.head? ≠ some '/' := by
  unfold pathJoin
  by_cases hb : b.data = []
  · simp only [List.map_cons, List.map_nil, List.filter_cons, ha, hb, ne_eq, not_true_eq_false,
      decide_False, decide_True, not_false_eq_true, Bool.false_eq_true, if_false, if_true,
      List.filter_nil]
    exact ⟨cleanChars_ne_nil _, cleanChars_head_unrooted _ (by simpa [joinWith] using h)⟩
  · simp only [List.map_cons, List.map_nil, List.filter_cons, ha, hb, ne_eq,
      decide_True, not_false_eq_true, if_true, List.filter_nil]
    refine ⟨cleanChars_ne_nil _, cleanChars_head_unrooted _ ?_⟩
    rw [joinWith, List.head?_append_of_ne_nil _ ha]
    exact h

theorem foldl_pathJoin_unrooted (anc : List String) :
    ∀ p : String, p.data ≠ [] → p.data.head? ≠ some '/' →
      (anc.foldl (fun p n => pathJoin [p, n]) p).data ≠ [] ∧
      (anc.foldl (fun p n => pathJoin [p, n]) p).data.head? ≠ some '/' := by
  induction anc with
  | nil => intro p h1 h2; exact ⟨h1, h2⟩
  | cons n rest ih =>
    intro p h1 h2
    have := pathJoin_head_unrooted p n h1 h2
    exact ih _ this.1 this.2

theorem dirOf_unrooted (anc : List String) :
    (dirOf anc).data ≠ [] ∧ (dirOf anc).data.head? ≠ some '/' :=
  foldl_pathJoin_unrooted anc "." (by decide) (by decide)

/-- The reading loop of the handler of `saveYuQue` ends on every file: the
bound of `readTitleAndContent` is never reached. -/
theorem readLoop_terminates (data : String) :
    (readLoop (data.data.length + 1) 0 "" [] data.data).isSome = true :=
  readLoop_isSome _ _ _ _ _ (Nat.lt_succ_self _)

/-- With an absolute base directory, in a scan from the root `.` the rules
that hold a path separator have no effect: `isIgnores` reports a candidate
excluded exactly when its bare name equals a rule without a separator. -/
theorem isIgnores_absolute_baseDir (cfg : Config) (ignores : List String) (name : String)
    (anc : List String) (habs : cfg.baseDir.data.head? = some '/') :
    isIgnores cfg ignores name (dirOf anc) =
      (ignores.filter (fun r => !stringsContains r '/')).contains name := by
  induction ignores with
  | nil => rfl
  | cons r rest ih =>
    unfold isIgnores
    by_cases hr : stringsContains r '/' = true
    · have hne : pathJoin [cfg.baseDir, r] ≠ pathJoin [dirOf anc, name] := by
        intro he
        have h1 := pathJoin_head_rooted cfg.baseDir r habs
        have h2 := (pathJoin_head_unrooted (dirOf anc) name (dirOf_unrooted anc).1
          (dirOf_unrooted anc).2).2
        rw [he] at h1
        exact h2 h1
      simp only [hr, if_true, hne, if_false, ih, List.filter_cons, Bool.not_true,
        Bool.false_eq_true]
    · have hr' : stringsContains r '/' = false := by simpa using hr
      simp only [hr', Bool.false_eq_true, if_false, ih, List.filter_cons, Bool.not_false, if_true,
        List.contains_cons]
      by_cases h : name = r
      · simp [h]
      · have : (name == r) = false := by simpa using h
        simp [h, this]

/-- A run of `isIgnores_absolute_baseDir`: started in `/home/u/docs`, the rule
`y/c.md` does not exclude the file `c.md` of the directory `y`. -/
theorem isIgnores_absolute_baseDir_witness :
    isIgnores sampleConfig [ "x", "y/c.md"] "c.md" (dirOf [ "y"]) = false :=
  (isIgnores_absolute_baseDir sampleConfig [ "x", "y/c.md"] "c.md" [ "y"] (by decide)).trans
    (by decide)

/-- C9 (the code writes `null`): with no snapshot file and an empty directory
the registry has no record after the build phase; on the `rebuild` path
`Books.Save` then writes `null`, and on the `sync` path it writes `[]`. -/
theorem rebuild_of_empty_writes_null (cfg : Config) (lib : Lib) (lv : LoopVar) (w : World) :
    elems (buildPhase cfg lib lv { w with snapshot := none, root := [] }).books = [] ∧
    (main cfg lib lv { w with snapshot := none, root := [] } [ "yuque-sync", "rebuild"]).saved
      = some (.ok (pathJoin [cfg.baseDir, "book.json"], "null")) ∧
    (main cfg lib lv { w with snapshot := none, root := [] } [ "yuque-sync", "sync"]).saved
      = some (.ok (pathJoin [cfg.baseDir, "book.json"], "[]")) ∧
    (main cfg lib lv { w with snapshot := none, root := [] } [ "yuque-sync"]).saved
      = some (.ok (pathJoin [cfg.baseDir, "book.json"], "[]")) := by
  have hne : pathJoin [cfg.baseDir, "book.json"] ≠ "" :=
    pathJoin_ne_empty cfg.baseDir "book.json" (by decide)
  refine ⟨rfl, ?_, ?_, ?_⟩
  · simp [main, buildPhase, Books.Parse, scanFiles, Books.Save, marshalBooks, hne]
  · simp [main, buildPhase, Books.Parse, scanFiles, Books.Save, marshalBooks, hne,
      Books.ReadEach, readEachLoop, elems, NewYuque]
    rfl
  · simp [main, buildPhase, Books.Parse, scanFiles, Books.Save, marshalBooks, hne,
      Books.ReadEach, readEachLoop, elems, NewYuque]
    rfl

theorem pathJoin_a : pathJoin [ ".", "a.md"] = "a.md" := by decide

theorem pathJoin_a1 : pathJoin [ "a.md"] = "a.md" := by decide

theorem pathJoin_b : pathJoin [ ".", "b.md"] = "b.md" := by decide

theorem pathJoin_b1 : pathJoin [ "b.md"] = "b.md" := by decide

theorem suffix_a : stringsHasSuffix "a.md" ".md" = true := by decide

theorem suffix_b : stringsHasSuffix "b.md" ".md" = true := by decide

/-- C1 (the code appends a duplicate): a first build over a directory that
holds the one file `a.md` makes one record; a second build over the same
directory, from the snapshot of the first, leaves two records with the slug
of `a.md`. -/
theorem second_build_duplicates_first_record (getenv : String → String) (getwd : String)
    (lib : Lib) (lv : LoopVar) (w : World) (content : String) (t₁ t₂ : Time) :
    (buildPhase (init getenv getwd) lib lv
        (freshWorld w [ .file "a.md" content] t₁)).books = some [builtRecord lib "a.md" t₁] ∧
    (buildPhase (init getenv getwd) lib lv
        { freshWorld w [ .file "a.md" content] t₂ with
          snapshot := some [builtRecord lib "a.md" t₁] }).books
      = some [builtRecord lib "a.md" t₁, builtRecord lib "a.md" t₂] ∧
    ¬ ([builtRecord lib "a.md" t₁, builtRecord lib "a.md" t₂].map (fun b => b.Slug)).Nodup := by
  refine ⟨?_, ?_, ?_⟩
  · simp [buildPhase, freshWorld, readIgnore, Books.Parse, scanFiles, scanEntry, isIgnores,
      isSupportSuffix, init_allowedSuffix, suffix_a, Node.info, buildBook, Books.FindBySlug,
      pathJoin_a, pathJoin_a1, encodeString, Books.AppendBook, sliceAppend, elems, builtRecord]
  · cases lv <;>
    simp [buildPhase, freshWorld, readIgnore, Books.Parse, scanFiles, scanEntry, isIgnores,
      isSupportSuffix, init_allowedSuffix, suffix_a, Node.info, buildBook, Books.FindBySlug,
      pathJoin_a, pathJoin_a1, encodeString, Books.AppendBook, sliceAppend, elems, builtRecord,
      Books.reloadIdx, reloadIdxLoop]
  · simp [builtRecord]

/-- C8 (the code leaves the record stale): over a directory with the files
`a.md` and `b.md`, whose slugs differ, the build at time `t₁` makes two
records; the build at time `t₂` from that snapshot finds both slugs in the
index, leaves the records of the list as they were, with `updatedAt = t₁`, and
appends a second record for `a.md`; the one record with the slug of `b.md`
has `updatedAt = t₁`. -/
theorem second_build_leaves_record_stale (getenv : String → String) (getwd : String)
    (lib : Lib) (lv : LoopVar) (w : World) (ca cb : String) (t₁ t₂ : Time)
    (hne : lib.md5hex "a.md" ≠ lib.md5hex "b.md") :
    (buildPhase (init getenv getwd) lib lv
        (freshWorld w [ .file "a.md" ca, .file "b.md" cb] t₁)).books
      = some [builtRecord lib "a.md" t₁, builtRecord lib "b.md" t₁] ∧
    (buildPhase (init getenv getwd) lib lv
        { freshWorld w [ .file "a.md" ca, .file "b.md" cb] t₂ with
          snapshot := some [builtRecord lib "a.md" t₁, builtRecord lib "b.md" t₁] }).books
      = some [builtRecord lib "a.md" t₁, builtRecord lib "b.md" t₁, builtRecord lib "a.md" t₂] ∧
    ([builtRecord lib "a.md" t₁, builtRecord lib "b.md" t₁, builtRecord lib "a.md" t₂].filter
        (fun b => b.Slug = lib.md5hex "b.md")).map (fun b => b.UpdatedAt) = [some t₁] := by
  have hne' : ¬ lib.md5hex "b.md" = lib.md5hex "a.md" := fun h => hne h.symm
  have hab : (lib.md5hex "a.md" == lib.md5hex "b.md") = false := beq_eq_false_iff_ne.mpr hne
  have hba : (lib.md5hex "b.md" == lib.md5hex "a.md") = false := beq_eq_false_iff_ne.mpr hne'
  refine ⟨?_, ?_, ?_⟩
  · simp [buildPhase, freshWorld, readIgnore, Books.Parse, scanFiles, scanEntry, isIgnores,
      isSupportSuffix, init_allowedSuffix, suffix_a, suffix_b, Node.info, buildBook,
      Books.FindBySlug, pathJoin_a, pathJoin_a1, pathJoin_b, pathJoin_b1, encodeString,
      Books.AppendBook, sliceAppend, elems, builtRecord]
  · cases lv <;>
    simp [buildPhase, freshWorld, readIgnore, Books.Parse, scanFiles, scanEntry, isIgnores,
      isSupportSuffix, init_allowedSuffix, suffix_a, suffix_b, Node.info, buildBook,
      Books.FindBySlug, pathJoin_a, pathJoin_a1, pathJoin_b, pathJoin_b1, encodeString,
      Books.AppendBook, sliceAppend, elems, builtRecord, Books.reloadIdx, reloadIdxLoop,
      List.lookup, hne, hne', hab, hba]
  · simp [builtRecord, List.filter_cons, hne]

/-- C8, a run of `second_build_leaves_record_stale`: built at time 1 and again
at time 2, the record of `b.md` keeps `updatedAt = 1`. -/
theorem second_build_leaves_record_stale_witness :
    (buildPhase sampleConfig sampleLib .shared
        { freshWorld sampleWorld [ .file "a.md" "# A\n", .file "b.md" "# B\n"] 2 with
          snapshot := some [builtRecord sampleLib "a.md" 1, builtRecord sampleLib "b.md" 1] }).books
      = some [builtRecord sampleLib "a.md" 1, builtRecord sampleLib "b.md" 1,
          builtRecord sampleLib "a.md" 2] :=
  (second_build_leaves_record_stale (fun _ => "") "/home/u/docs" sampleLib .shared sampleWorld
    "# A\n" "# B\n" 1 2 (by decide)).2.1

/-- With one loop variable for the whole loop of `reloadIdx` (Go before 1.22)
every pointer of the index refers to the copy of the last record: over a
directory with `a.md` and `b.md`, whose slugs differ, and a snapshot in which
they have the remote ids 11 and 22, the record that the second build appends
for `a.md` has the remote id 22 of `b.md`; with a loop variable per iteration
it has the remote id 11. -/
theorem second_build_duplicate_remote_id (getenv : String → String) (getwd : String)
    (lib : Lib) (w : World) (ca cb : String) (t₁ t₂ : Time)
    (hne : lib.md5hex "a.md" ≠ lib.md5hex "b.md") :
    (buildPhase (init getenv getwd) lib .shared
        { freshWorld w [ .file "a.md" ca, .file "b.md" cb] t₂ with
          snapshot := some [{ builtRecord lib "a.md" t₁ with Id := 11 },
            { builtRecord lib "b.md" t₁ with Id := 22 }] }).books
      = some [{ builtRecord lib "a.md" t₁ with Id := 11 },
          { builtRecord lib "b.md" t₁ with Id := 22 },
          { builtRecord lib "a.md" t₂ with Id := 22 }] ∧
    (buildPhase (init getenv getwd) lib .perIteration
        { freshWorld w [ .file "a.md" ca, .file "b.md" cb] t₂ with
          snapshot := some [{ builtRecord lib "a.md" t₁ with Id := 11 },
            { builtRecord lib "b.md" t₁ with Id := 22 }] }).books
      = some [{ builtRecord lib "a.md" t₁ with Id := 11 },
          { builtRecord lib "b.md" t₁ with Id := 22 },
          { builtRecord lib "a.md" t₂ with Id := 11 }] := by
  have hne' : ¬ lib.md5hex "b.md" = lib.md5hex "a.md" := fun h => hne h.symm
  have hab : (lib.md5hex "a.md" == lib.md5hex "b.md") = false := beq_eq_false_iff_ne.mpr hne
  have hba : (lib.md5hex "b.md" == lib.md5hex "a.md") = false := beq_eq_false_iff_ne.mpr hne'
  constructor <;>
  simp [buildPhase, freshWorld, readIgnore, Books.Parse, scanFiles, scanEntry, isIgnores,
    isSupportSuffix, init_allowedSuffix, suffix_a, suffix_b, Node.info, buildBook,
    Books.FindBySlug, pathJoin_a, pathJoin_a1, pathJoin_b, pathJoin_b1, encodeString,
    Books.AppendBook, sliceAppend, elems, builtRecord, Books.reloadIdx, reloadIdxLoop,
    List.lookup, hne, hne', hab, hba]

/-- A run of `second_build_duplicate_remote_id` with the shared loop variable. -/
theorem second_build_duplicate_remote_id_witness :
    (buildPhase sampleConfig sampleLib .shared
        { freshWorld sampleWorld [ .file "a.md" "# A\n", .file "b.md" "# B\n"] 2 with
          snapshot := some [{ builtRecord sampleLib "a.md" 1 with Id := 11 },
            { builtRecord sampleLib "b.md" 1 with Id := 22 }] }).books
      = some [{ builtRecord sampleLib "a.md" 1 with Id := 11 },
          { builtRecord sampleLib "b.md" 1 with Id := 22 },
          { builtRecord sampleLib "a.md" 2 with Id := 22 }] :=
  (second_build_duplicate_remote_id (fun _ => "") "/home/u/docs" sampleLib sampleWorld
    "# A\n" "# B\n" 1 2 (by decide)).1

end YuqueSync
